import Mathlib

/-!
# Verification of `cmdstatc.go` (pksingh/uservices)

A shallow embedding of the statistics calculator `XRecord` and of the
properties its specification states.

Modelling conventions
* Go's `float64` is embedded as `ℚ`: arithmetic is exact, there is no NaN,
  no infinity and no rounding.
* Go's `int` is embedded as `Int`; slices are lists and an index expression
  `s[i]` is `idx s i`, which is `none` where Go would panic.
* A method with a pointer receiver that mutates the record in place and returns
  it becomes a function returning the new record; a method that can panic on an
  index returns `Option XRecord`.
* `*XRecord` being `nil` is `none`.
* The `error` slot is `Option String`, `nil` being `none`.
* `math.Sqrt` is a parameter `sqrt : ℚ → ℚ` of the operations that call it.
* `sort.Float64s` is embedded as insertion sort for `≤`; the sorted permutation
  of a list over a linear order is unique, so the choice of algorithm is not
  observable.
* A Go `map[float64]int` is an association list; the order in which Go
  enumerates a map is unspecified, the embedding enumerates in the order of
  first insertion and no theorem below depends on that order.
* A Go `string` is a `List Char` (valid UTF-8 only); `len(s)` is the sum of the
  UTF-8 sizes of its characters. The functions of `strings`, `unicode` and
  `strconv` that the source calls are embedded from their documented behaviour,
  `strconv.ParseFloat` for plain decimal literals only.
* The pair `(*XRecord, error)` returned by `processStat` is a pair of options.
-/

namespace Statc

/-- Register: a way to store evaluated results. Every field starts at Go's
zero value. -/
structure Register where
  Total : ℚ := 0
  Mean : ℚ := 0
  Median : ℚ := 0
  Range : ℚ := 0
  Variance : ℚ := 0
  StandardDeviation : ℚ := 0
  SortedMedian : ℚ := 0
  MaxIndices : List Int := []
  MaxValue : ℚ := 0
  MinIndices : List Int := []
  MinValue : ℚ := 0
  ModeRepeatCount : Int := 0
  Modes : List ℚ := []
deriving DecidableEq

/-- XRecord: the data holder with its memoization flags and result register. -/
structure XRecord where
  data : List ℚ
  sortedData : List ℚ := []
  length : Int
  even : Bool := false
  middleIndex : Int := 0
  err : Option String := none
  evalTotal : Bool := false
  evalMean : Bool := false
  evalMedian : Bool := false
  evalRange : Bool := false
  evalVariance : Bool := false
  evalStandardDeviation : Bool := false
  evalSortedMedian : Bool := false
  evalMax : Bool := false
  evalMaxWithIndices : Bool := false
  evalMin : Bool := false
  evalMinWithIndices : Bool := false
  evalModes : Bool := false
  Register : Register := {}
deriving DecidableEq

/-- The index expression `s[i]` of Go: `none` where Go panics (index out of
range). -/
def idx (s : List ℚ) (i : Int) : Option ℚ :=
  if i < 0 then none else s[i.toNat]?

/-- Conversion `int(f)` of a float to an integer: truncation toward zero. -/
def toInt (f : ℚ) : Int :=
  if 0 ≤ f then ⌊f⌋ else ⌈f⌉

/-- Function `math.Modf`: the integer part and the fractional part of `f`, both
with the sign of `f`. -/
def Modf (f : ℚ) : ℚ × ℚ :=
  ((toInt f : ℚ), f - (toInt f : ℚ))

/-- Function `sort.Float64s`: the slice in ascending order. -/
def sortFloat64s (s : List ℚ) : List ℚ :=
  s.insertionSort (· ≤ ·)

/-- Method `Length()`. -/
def XRecord.Length (x : XRecord) : Int :=
  x.length

/-- Method `Even()`. -/
def XRecord.Even (x : XRecord) : Bool :=
  x.even

/-- Method `validate()`: true if no error. -/
def XRecord.validate (x : XRecord) : Bool :=
  if x.err ≠ none then false else true

/-- Method `Failed()`: true if the error slot is set. -/
def XRecord.Failed (x : XRecord) : Bool :=
  if x.err ≠ none then true else false

/-- Function `New(data)`: `none` (Go's `nil`) on the empty slice; otherwise the
record with the data, its sorted copy, its length, the `even` flag computed from
`math.Modf(float64(length))` and `middleIndex = int(modInt / 2)`. -/
def New (data : List ℚ) : Option XRecord :=
  if data.length = 0 then none
  else
    let length : Int := data.length
    let sortedData := sortFloat64s data
    let m := Modf (length : ℚ)
    let even := if m.2 = 0 then true else false
    some { data := data, length := length, sortedData := sortedData,
           even := even, middleIndex := toInt (m.1 / 2) }

/-- Method `Total()`: the sum of the values, accumulated from 0 in slice order. -/
def XRecord.Total (x : XRecord) : XRecord :=
  if x.evalTotal || x.err ≠ none then x
  else
    { x with
      Register := { x.Register with Total := x.data.foldl (fun acc v => acc + v) 0 }
      evalTotal := true }

/-- Method `Mean()`: `Total / float64(length)`, computing `Total` first when its
flag is not set. -/
def XRecord.Mean (x : XRecord) : XRecord :=
  if x.evalMean || x.err ≠ none then x
  else
    let x1 := if !x.evalTotal then x.Total else x
    if !x.evalTotal && x1.err ≠ none then x1
    else
      { x1 with
        Register := { x1.Register with Mean := x1.Register.Total / (x1.length : ℚ) }
        evalMean := true }

/-- Method `Variance()`: adds the squared deviations from the mean onto the
value already in `Register.Variance`, then divides by `float64(length)`. -/
def XRecord.Variance (x : XRecord) : XRecord :=
  if x.evalVariance || x.err ≠ none then x
  else
    let x1 := if !x.evalMean then x.Mean else x
    if !x.evalMean && x1.err ≠ none then x1
    else
      let acc := x1.data.foldl
        (fun acc i => acc + (x1.Register.Mean - i) * (x1.Register.Mean - i))
        x1.Register.Variance
      { x1 with
        Register := { x1.Register with Variance := acc / (x1.length : ℚ) }
        evalVariance := true }

/-- Method `Max()`: the last element of the sorted slice. -/
def XRecord.Max (x : XRecord) : Option XRecord :=
  if x.evalMax || x.err ≠ none then some x
  else
    match idx x.sortedData (x.length - 1) with
    | none => none
    | some v =>
      some { x with Register := { x.Register with MaxValue := v }, evalMax := true }

/-- The loop `for i, v := range data { if v == m { out = append(out, i) } }`,
started at position `i` with `out` collected so far. -/
def scanIndices (m : ℚ) : List ℚ → Int → List Int → List Int
  | [], _, out => out
  | v :: vs, i, out => scanIndices m vs (i + 1) (if v = m then out ++ [i] else out)

/-- Method `MaxWithIndices()`. -/
def XRecord.MaxWithIndices (x : XRecord) : Option XRecord :=
  if x.evalMaxWithIndices || x.err ≠ none then some x
  else
    match (if !x.evalMax then x.Max else some x) with
    | none => none
    | some x1 =>
      if !x.evalMax && x1.err ≠ none then some x1
      else if x1.length = 1 then
        some { x1 with
               Register := { x1.Register with MaxIndices := [] ++ [0] }
               evalMaxWithIndices := true }
      else
        some { x1 with
               Register := { x1.Register with
                             MaxIndices := scanIndices x1.Register.MaxValue x1.data 0 [] }
               evalMaxWithIndices := true }

/-- Method `Min()`: the first element of the sorted slice. The flag it sets is
`evalMax`, as the source does. -/
def XRecord.Min (x : XRecord) : Option XRecord :=
  if x.evalMin || x.err ≠ none then some x
  else
    match idx x.sortedData 0 with
    | none => none
    | some v =>
      some { x with Register := { x.Register with MinValue := v }, evalMax := true }

/-- Method `MinWithIndices()`. -/
def XRecord.MinWithIndices (x : XRecord) : Option XRecord :=
  if x.evalMinWithIndices || x.err ≠ none then some x
  else
    match (if !x.evalMin then x.Min else some x) with
    | none => none
    | some x1 =>
      if !x.evalMin && x1.err ≠ none then some x1
      else if x1.length = 1 then
        some { x1 with
               Register := { x1.Register with MinIndices := [] ++ [0] }
               evalMinWithIndices := true }
      else
        some { x1 with
               Register := { x1.Register with
                             MinIndices := scanIndices x1.Register.MinValue x1.data 0 [] }
               evalMinWithIndices := true }

/-- Method `Range()`: `MaxValue - MinValue`, computing each first when its flag
is not set. -/
def XRecord.Range (x : XRecord) : Option XRecord :=
  if x.evalRange || x.err ≠ none then some x
  else
    match (if !x.evalMax then x.Max else some x) with
    | none => none
    | some x1 =>
      if !x.evalMax && x1.err ≠ none then some x1
      else
        match (if !x1.evalMin then x1.Min else some x1) with
        | none => none
        | some x2 =>
          if !x1.evalMin && x2.err ≠ none then some x2
          else
            some { x2 with
                   Register := { x2.Register with
                                 Range := x2.Register.MaxValue - x2.Register.MinValue }
                   evalRange := true }

/-- The statement `occurences[k]++` on the association list. -/
def mapIncr (k : ℚ) : List (ℚ × Int) → List (ℚ × Int)
  | [] => [(k, 0 + 1)]
  | (k1, c) :: rest => if k1 = k then (k1, c + 1) :: rest else (k1, c) :: mapIncr k rest

/-- The expression `occurences[k]`: 0 for a key that is absent. -/
def mapGet (k : ℚ) : List (ℚ × Int) → Int
  | [] => 0
  | (k1, c) :: rest => if k1 = k then c else mapGet k rest

/-- One iteration of the counting loop of `Modes()` on the pair of the map and
`Register.ModeRepeatCount`. -/
def modesStep (st : List (ℚ × Int) × Int) (i : ℚ) : List (ℚ × Int) × Int :=
  let occ := mapIncr i st.1
  (occ, if mapGet i occ > st.2 then mapGet i occ else st.2)

/-- The loop `for i, v := range occurences { if v == r { out = append(out, i) } }`. -/
def modesCollect (r : Int) : List (ℚ × Int) → List ℚ → List ℚ
  | [], out => out
  | (k, v) :: rest, out => modesCollect r rest (if v = r then out ++ [k] else out)

/-- Method `Modes()`. The counting loop starts from the value already in
`Register.ModeRepeatCount`. -/
def XRecord.Modes (x : XRecord) : XRecord :=
  if x.evalModes || x.err ≠ none then x
  else
    let st := x.data.foldl modesStep ([], x.Register.ModeRepeatCount)
    if (st.1.length : Int) = x.length then
      { x with
        Register := { x.Register with Modes := [], ModeRepeatCount := 0 }
        evalModes := true }
    else
      { x with
        Register := { x.Register with
                      Modes := modesCollect st.2 st.1 [], ModeRepeatCount := st.2 }
        evalModes := true }

/-- Method `Median(sorted)`. -/
def XRecord.Median (x : XRecord) (sorted : Bool) : Option XRecord :=
  if (!sorted && x.evalMedian) || (sorted && x.evalSortedMedian) || x.err ≠ none then some x
  else if x.length = 1 then
    match idx x.data 0 with
    | none => none
    | some v =>
      some { x with
             Register := { x.Register with SortedMedian := v, Median := v }
             evalSortedMedian := true
             evalMedian := true }
  else if sorted then
    if !x.even then
      match idx x.sortedData x.middleIndex with
      | none => none
      | some v =>
        some { x with Register := { x.Register with SortedMedian := v }
                      evalSortedMedian := true }
    else
      match idx x.sortedData x.middleIndex, idx x.sortedData (x.middleIndex - 1) with
      | some a, some b =>
        some { x with Register := { x.Register with SortedMedian := (a + b) / 2 }
                      evalSortedMedian := true }
      | _, _ => none
  else
    if !x.even then
      match idx x.data x.middleIndex with
      | none => none
      | some v =>
        some { x with Register := { x.Register with Median := v }
                      evalMedian := true }
    else
      match idx x.data x.middleIndex, idx x.data (x.middleIndex - 1) with
      | some a, some b =>
        some { x with Register := { x.Register with Median := (a + b) / 2 }
                      evalMedian := true }
      | _, _ => none

/-- Method `StandardDeviation()`: `math.Sqrt` of the variance, computing the
variance first when its flag is not set. -/
def XRecord.StandardDeviation (sqrt : ℚ → ℚ) (x : XRecord) : XRecord :=
  if x.evalStandardDeviation || x.err ≠ none then x
  else
    let x1 := if !x.evalVariance then x.Variance else x
    if !x.evalVariance && x1.err ≠ none then x1
    else
      { x1 with
        Register := { x1.Register with StandardDeviation := sqrt x1.Register.Variance }
        evalStandardDeviation := true }

/-- Method `RunAll()`: every statistic, in the order of the source. -/
def XRecord.RunAll (sqrt : ℚ → ℚ) (x : XRecord) : Option XRecord :=
  if !x.validate then some x
  else
    (((((((x.Total).StandardDeviation sqrt).Variance).Range).bind
      XRecord.MaxWithIndices).bind XRecord.MinWithIndices).bind
      (fun y => y.Median true)).bind (fun y => y.Median false)
      |>.map (fun y => (y.Mean).Modes)

/-- The statistic operations of a series; `Median(true)` and `Median(false)` are
listed as two operations. -/
inductive Op where
  | Total
  | Mean
  | Variance
  | StandardDeviation
  | Max
  | MaxWithIndices
  | Min
  | MinWithIndices
  | Range
  | Modes
  | MedianSorted
  | MedianUnsorted
  | RunAll
deriving DecidableEq

/-- One call of a statistic operation on a series. -/
def XRecord.apply (sqrt : ℚ → ℚ) (op : Op) (x : XRecord) : Option XRecord :=
  match op with
  | Op.Total => some x.Total
  | Op.Mean => some x.Mean
  | Op.Variance => some x.Variance
  | Op.StandardDeviation => some (x.StandardDeviation sqrt)
  | Op.Max => x.Max
  | Op.MaxWithIndices => x.MaxWithIndices
  | Op.Min => x.Min
  | Op.MinWithIndices => x.MinWithIndices
  | Op.Range => x.Range
  | Op.Modes => some x.Modes
  | Op.MedianSorted => x.Median true
  | Op.MedianUnsorted => x.Median false
  | Op.RunAll => x.RunAll sqrt

/-- A finite sequence of calls, one after the other, on the same series. -/
def runOps (sqrt : ℚ → ℚ) : List Op → XRecord → Option XRecord
  | [], x => some x
  | op :: ops, x => (x.apply sqrt op).bind (runOps sqrt ops)

/-- The part of a series that no statistic operation writes: `y` has the data,
sorted data, length, parity flag, middle index and error slot of `x`, and every
memoization flag set in `x` is set in `y`. -/
def Frame (x y : XRecord) : Prop :=
  y.data = x.data ∧ y.sortedData = x.sortedData ∧ y.length = x.length ∧
  y.even = x.even ∧ y.middleIndex = x.middleIndex ∧ y.err = x.err ∧
  (x.evalTotal = true → y.evalTotal = true) ∧
  (x.evalMean = true → y.evalMean = true) ∧
  (x.evalMedian = true → y.evalMedian = true) ∧
  (x.evalRange = true → y.evalRange = true) ∧
  (x.evalVariance = true → y.evalVariance = true) ∧
  (x.evalStandardDeviation = true → y.evalStandardDeviation = true) ∧
  (x.evalSortedMedian = true → y.evalSortedMedian = true) ∧
  (x.evalMax = true → y.evalMax = true) ∧
  (x.evalMaxWithIndices = true → y.evalMaxWithIndices = true) ∧
  (x.evalMin = true → y.evalMin = true) ∧
  (x.evalMinWithIndices = true → y.evalMinWithIndices = true) ∧
  (x.evalModes = true → y.evalModes = true)

/-- The shape `New` gives a series: non-empty data, `length` its length, a sorted
copy of the same length, `middleIndex = length / 2` and no error. -/
def WellFormed (x : XRecord) : Prop :=
  x.data ≠ [] ∧ x.length = (x.data.length : Int) ∧
  x.sortedData.length = x.data.length ∧ x.middleIndex = x.length / 2 ∧ x.err = none

/-- Function `unicode.IsSpace`: the Latin-1 white space characters, and above
Latin-1 the code points of the Unicode property White_Space. -/
def IsSpace (r : Char) : Bool :=
  if r.toNat ≤ 0xFF then
    r.toNat = 0x09 || r.toNat = 0x0A || r.toNat = 0x0B || r.toNat = 0x0C ||
    r.toNat = 0x0D || r.toNat = 0x20 || r.toNat = 0x85 || r.toNat = 0xA0
  else
    r.toNat = 0x1680 || (0x2000 ≤ r.toNat && r.toNat ≤ 0x200A) ||
    r.toNat = 0x2028 || r.toNat = 0x2029 || r.toNat = 0x202F ||
    r.toNat = 0x205F || r.toNat = 0x3000

/-- The scan of `strings.Fields` with the field being read in `cur`. -/
def fieldsFrom : List Char → List Char → List (List Char)
  | [], cur => if cur = [] then [] else [cur]
  | c :: rest, cur =>
    if IsSpace c then
      if cur = [] then fieldsFrom rest [] else cur :: fieldsFrom rest []
    else fieldsFrom rest (cur ++ [c])

/-- Function `strings.Fields`: the maximal runs of characters that are not white
space, in order. -/
def Fields (s : List Char) : List (List Char) :=
  fieldsFrom s []

/-- Function `strings.Join`. -/
def Join : List (List Char) → List Char → List Char
  | [], _ => []
  | [a], _ => a
  | a :: b :: rest, sep => a ++ sep ++ Join (b :: rest) sep

/-- The scan of `strings.ReplaceAll` for a non-empty `old`: `skip` counts the
characters of a match still to be passed over. -/
def replaceFrom (old new : List Char) : Nat → List Char → List Char
  | _, [] => []
  | skip + 1, _ :: rest => replaceFrom old new skip rest
  | 0, c :: rest =>
    if old.isPrefixOf (c :: rest) then new ++ replaceFrom old new (old.length - 1) rest
    else c :: replaceFrom old new 0 rest

/-- Function `strings.ReplaceAll(s, old, new)` for a non-empty `old`: the
non-overlapping matches of `old` are replaced from left to right, in one pass. -/
def ReplaceAll (s old new : List Char) : List Char :=
  replaceFrom old new 0 s

/-- Function `strings.Split(s, sep)` for a one-character separator: the pieces
between the separators, one more than there are separators. -/
def Split (s : List Char) (sep : Char) : List (List Char) :=
  match s with
  | [] => [[]]
  | c :: rest =>
    if c = sep then [] :: Split rest sep
    else
      match Split rest sep with
      | [] => [[c]]
      | piece :: pieces => (c :: piece) :: pieces

/-- Function `strings.TrimSpace`. -/
def TrimSpace (s : List Char) : List Char :=
  ((s.dropWhile IsSpace).reverse.dropWhile IsSpace).reverse

/-- Function `strings.Contains` for a one-character substring. -/
def Contains (s : List Char) (c : Char) : Bool :=
  s.contains c

/-- The value of a run of decimal digits read onto `acc`; `none` at a character
that is not a digit. -/
def readDigits : List Char → Nat → Option Nat
  | [], acc => some acc
  | c :: rest, acc =>
    if 48 ≤ c.toNat ∧ c.toNat ≤ 57 then readDigits rest (10 * acc + (c.toNat - 48))
    else none

/-- Function `strconv.ParseFloat(s, 64)` on plain decimal literals: an optional
sign, digits with at most one decimal point, at least one digit. The value is
exact. The exponent, hexadecimal, infinity and NaN forms are outside this
embedding and read as a failure. -/
def ParseFloat (s : List Char) : Option ℚ :=
  let body := if s.head? = some '-' ∨ s.head? = some '+' then s.tail else s
  let ip := body.takeWhile (fun c => c ≠ '.')
  let fp := (body.dropWhile (fun c => c ≠ '.')).tail
  if ip ++ fp = [] then none
  else
    match readDigits (ip ++ fp) 0 with
    | none => none
    | some m =>
      some ((if s.head? = some '-' then -1 else 1) * (m : ℚ) / (10 : ℚ) ^ fp.length)

/-- The loop of `NewString` over the pieces, with the values parsed so far. -/
def parsePieces : List (List Char) → List ℚ → Option (List ℚ)
  | [], arr => some arr
  | i :: rest, arr =>
    let i1 := TrimSpace i
    let i2 := if !Contains i1 '.' then i1 ++ ['.', '0'] else i1
    match ParseFloat i2 with
    | none => none
    | some j => parsePieces rest (arr ++ [j])

/-- Function `NewString(s)`: `nil` when a piece does not parse, else `New` of the
parsed values. -/
def NewString (s : List Char) : Option XRecord :=
  match parsePieces (Split s ',') [] with
  | none => none
  | some arr => New arr

/-- Function `processStat(e)`: the outer `Option` is `none` where the call
panics; the pair is the returned series and error. -/
def processStat (sqrt : ℚ → ℚ) (e : List Char) :
    Option (Option XRecord × Option String) :=
  let c := ReplaceAll (Join (Fields e) [',']) [',', ','] [',']
  match NewString c with
  | none => some (none, some "failed to initialize stat-calculator")
  | some calx => (calx.RunAll sqrt).map (fun y => (some y, y.err))

/-- The byte length `len(s)` of a string: the sum of the UTF-8 sizes of its
characters. -/
def byteLen (s : List Char) : Int :=
  (s.map (fun c => (c.utf8Size : Int))).sum

/-- The loop of `addNLines`: `j` is the counter, `sb` the builder. -/
def addNLinesLoop (max : Int) : List Char → Int → List Char → List Char
  | [], _, sb => sb
  | c :: rest, j, sb =>
    if IsSpace c && decide (j > max) then
      addNLinesLoop max rest (2 + 1) ((sb ++ [Char.ofNat 10, ' ', ' ']) ++ [c])
    else addNLinesLoop max rest (j + 1) (sb ++ [c])

/-- Function `addNLines(s, max)`. -/
def addNLines (s : List Char) (max : Int) : List Char :=
  if byteLen s > max then addNLinesLoop max s 0 [] else s

/-- The text `t` is the text `s` with copies of the break (a newline and two
spaces) inserted, each immediately before a white space character of `s` that
has more than `max` characters before it on its output line; `j` is the number
of characters already on the output line where `s` starts, and a line that
starts at a break begins with the two spaces of the break. -/
inductive BreaksInserted (max : Int) : Int → List Char → List Char → Prop where
  | nil (j : Int) : BreaksInserted max j [] []
  | keep (j : Int) (c : Char) (s t : List Char) :
      BreaksInserted max (j + 1) s t → BreaksInserted max j (c :: s) (c :: t)
  | brk (j : Int) (c : Char) (s t : List Char) :
      IsSpace c = true → j > max → BreaksInserted max 3 s t →
      BreaksInserted max j (c :: s) (Char.ofNat 10 :: ' ' :: ' ' :: c :: t)

/-! ## Construction -/

theorem toInt_natCast_div_two (n : ℕ) : toInt ((n : ℚ) / 2) = (n : Int) / 2 := by
  have h0 : (0 : ℚ) ≤ (n : ℚ) / 2 := by positivity
  have h := Rat.floor_intCast_div_natCast (n : Int) 2
  simp only [toInt, h0, if_true]
  simpa using h

theorem toInt_natCast (n : ℕ) : toInt (n : ℚ) = (n : Int) := by
  have h0 : (0 : ℚ) ≤ (n : ℚ) := by positivity
  simp [toInt, h0]

/-- On a whole number `math.Modf` returns the number and the fraction 0. -/
theorem Modf_natCast (n : ℕ) : Modf (n : ℚ) = ((n : ℚ), 0) := by
  simp [Modf, toInt_natCast]

/-- The record `New` builds from a non-empty slice: the fraction of
`float64(length)` is always 0, so `even` is set for every length. -/
theorem New_eq_some (data : List ℚ) (h : data ≠ []) :
    New data = some { data := data, sortedData := sortFloat64s data,
                      length := (data.length : Int), even := true,
                      middleIndex := (data.length : Int) / 2 } := by
  have hl : data.length ≠ 0 := by simpa using h
  simp [New, hl, Modf_natCast, toInt_natCast_div_two]

theorem sortFloat64s_length (s : List ℚ) : (sortFloat64s s).length = s.length := by
  simp [sortFloat64s]

theorem sortFloat64s_perm (s : List ℚ) : (sortFloat64s s).Perm s :=
  List.perm_insertionSort _ s

theorem sortFloat64s_sorted (s : List ℚ) : (sortFloat64s s).Sorted (· ≤ ·) :=
  List.sorted_insertionSort _ s

/-- An index inside the slice reads the element at that position. -/
theorem idx_eq_some (s : List ℚ) (i : Int) (h0 : 0 ≤ i) (h1 : i < s.length) :
    ∃ v, idx s i = some v ∧ s[i.toNat]? = some v := by
  have hlt : i.toNat < s.length := by omega
  refine ⟨s[i.toNat], ?_, ?_⟩
  · simp [idx, not_lt.mpr h0, List.getElem?_eq_getElem hlt]
  · simp [List.getElem?_eq_getElem hlt]

/-- The two median variants on a fresh series of length at least 2: since
`even` is set for every length, both average the elements at `middleIndex` and
`middleIndex - 1`. -/
theorem Median_fresh_of_two_le (data : List ℚ) (hn : 2 ≤ data.length) :
    ∃ x a b c d, New data = some x ∧
      x.data = data ∧ x.sortedData = sortFloat64s data ∧
      idx data ((data.length : Int) / 2) = some a ∧
      idx data ((data.length : Int) / 2 - 1) = some b ∧
      idx (sortFloat64s data) ((data.length : Int) / 2) = some c ∧
      idx (sortFloat64s data) ((data.length : Int) / 2 - 1) = some d ∧
      (x.Median false).map (fun y => y.Register.Median) = some ((a + b) / 2) ∧
      (x.Median true).map (fun y => y.Register.SortedMedian) = some ((c + d) / 2) := by
  have hne : data ≠ [] := by
    rintro rfl
    simp at hn
  have hs := sortFloat64s_length data
  obtain ⟨a, ha, -⟩ := idx_eq_some data ((data.length : Int) / 2) (by omega) (by omega)
  obtain ⟨b, hb, -⟩ := idx_eq_some data ((data.length : Int) / 2 - 1) (by omega) (by omega)
  obtain ⟨c, hc, -⟩ :=
    idx_eq_some (sortFloat64s data) ((data.length : Int) / 2) (by omega) (by omega)
  obtain ⟨d, hd, -⟩ :=
    idx_eq_some (sortFloat64s data) ((data.length : Int) / 2 - 1) (by omega) (by omega)
  have h1 : ¬ ((data.length : Int) = 1) := by omega
  refine ⟨_, a, b, c, d, New_eq_some data hne, rfl, rfl, ha, hb, hc, hd, ?_, ?_⟩
  · simp [XRecord.Median, h1, ha, hb]
  · simp [XRecord.Median, h1, hc, hd]

/-! ## C1: the parity flag -/

/-- C1 (code defect): on the odd-length input `[3,1,2]` the series built by
`New` reports `Even() = true`, where the claim requires `false`. -/
theorem C1_Even_true_on_odd_length :
    (New [3, 1, 2]).map XRecord.Even = some true ∧ ([3, 1, 2] : List ℚ).length % 2 = 1 := by
  rw [New_eq_some _ (by simp)]
  exact ⟨rfl, rfl⟩

/-! ## C2, C3: medians -/

/-- C2 (code defect): on the odd-length input `[3,1,2]`, `Median(false)` stores
`(data[1] + data[0]) / 2 = 2` where the claim requires `data[1] = 1`, and
`Median(true)` stores `(sortedData[1] + sortedData[0]) / 2 = 3/2` where the
claim requires `sortedData[1] = 2`. -/
theorem C2_median_odd_length_averages :
    ((New [3, 1, 2]).bind (fun x => x.Median false)).map (fun y => y.Register.Median) = some 2 ∧
    idx [3, 1, 2] (3 / 2) = some 1 ∧
    ((New [3, 1, 2]).bind (fun x => x.Median true)).map (fun y => y.Register.SortedMedian)
      = some (3 / 2) ∧
    idx (sortFloat64s [3, 1, 2]) (3 / 2) = some 2 := by
  rw [New_eq_some _ (by simp)]
  refine ⟨?_, ?_, ?_, ?_⟩
  · simp [XRecord.Median, idx]; norm_num
  · simp [idx]
  · simp [XRecord.Median, idx, sortFloat64s]; norm_num
  · norm_num [idx, sortFloat64s]

/-- C3: for a slice of even length `n ≥ 2`, on the series `New(data)` the index
accesses at `n/2` and `n/2 - 1` are in bounds in both `data` and `sortedData`,
`Median(false)` stores `(data[n/2] + data[n/2 - 1]) / 2` in `Register.Median` and
`Median(true)` stores `(sortedData[n/2] + sortedData[n/2 - 1]) / 2` in
`Register.SortedMedian`. -/
theorem C3_median_even_length (data : List ℚ) (hn : 2 ≤ data.length)
    (_he : data.length % 2 = 0) :
    ∃ x a b c d, New data = some x ∧
      x.data = data ∧ x.sortedData = sortFloat64s data ∧
      idx data ((data.length : Int) / 2) = some a ∧
      idx data ((data.length : Int) / 2 - 1) = some b ∧
      idx (sortFloat64s data) ((data.length : Int) / 2) = some c ∧
      idx (sortFloat64s data) ((data.length : Int) / 2 - 1) = some d ∧
      (x.Median false).map (fun y => y.Register.Median) = some ((a + b) / 2) ∧
      (x.Median true).map (fun y => y.Register.SortedMedian) = some ((c + d) / 2) :=
  Median_fresh_of_two_le data hn

/-- C3 at `[4,1,3,2]`: the unsorted median is 2 and the sorted median is 5/2. -/
theorem C3_median_even_length_witness :
    ((New [4, 1, 3, 2]).bind (fun x => x.Median false)).map (fun y => y.Register.Median)
      = some 2 ∧
    ((New [4, 1, 3, 2]).bind (fun x => x.Median true)).map (fun y => y.Register.SortedMedian)
      = some (5 / 2) := by
  obtain ⟨x, a, b, c, d, hx, -, -, ha, hb, hc, hd, h1, h2⟩ :=
    C3_median_even_length [4, 1, 3, 2] (by decide) (by decide)
  have ea : a = 3 := by
    have : idx [4, 1, 3, 2] (((([4, 1, 3, 2] : List ℚ).length : ℕ) : Int) / 2) = some 3 := by
      simp [idx]
    rw [this] at ha
    exact (Option.some.inj ha).symm
  have eb : b = 1 := by
    have : idx [4, 1, 3, 2] (((([4, 1, 3, 2] : List ℚ).length : ℕ) : Int) / 2 - 1)
        = some 1 := by
      simp [idx]
    rw [this] at hb
    exact (Option.some.inj hb).symm
  have hsort : sortFloat64s [4, 1, 3, 2] = [1, 2, 3, 4] := by
    norm_num [sortFloat64s]
  rw [hsort] at hc hd
  have ec : c = 3 := by
    have : idx [1, 2, 3, 4] (((([4, 1, 3, 2] : List ℚ).length : ℕ) : Int) / 2) = some 3 := by
      simp [idx]
    rw [this] at hc
    exact (Option.some.inj hc).symm
  have ed : d = 2 := by
    have : idx [1, 2, 3, 4] (((([4, 1, 3, 2] : List ℚ).length : ℕ) : Int) / 2 - 1)
        = some 2 := by
      simp [idx]
    rw [this] at hd
    exact (Option.some.inj hd).symm
  subst ea eb ec ed
  rw [hx]
  refine ⟨?_, ?_⟩
  · rw [Option.some_bind, h1]; norm_num
  · rw [Option.some_bind, h2]; norm_num

/-! ## Total, mean, variance, standard deviation -/

theorem foldl_add_eq_sum (f : ℚ → ℚ) (s : List ℚ) (a : ℚ) :
    s.foldl (fun acc v => acc + f v) a = a + (s.map f).sum := by
  induction s generalizing a with
  | nil => simp
  | cons v vs ih => simp [ih, add_assoc]

/-- The fresh series of a non-empty slice, as `New` builds it. -/
theorem Total_fresh (data : List ℚ) (hne : data ≠ []) :
    (New data).map (fun x => x.Total.Register.Total) = some data.sum := by
  rw [New_eq_some data hne]
  have h := foldl_add_eq_sum (fun v => v) data 0
  simp only [List.map_id', zero_add] at h
  simp [XRecord.Total, h]

/-- The variance chain on a fresh series: `Variance()` computes the total, the
mean and the population variance. -/
theorem Variance_fresh (data : List ℚ) (hne : data ≠ []) :
    ∃ x, New data = some x ∧
      x.Variance.Register.Total = data.sum ∧
      x.Variance.Register.Mean = data.sum / (data.length : ℚ) ∧
      x.Variance.Register.Variance =
        (data.map (fun v =>
          (data.sum / (data.length : ℚ) - v) * (data.sum / (data.length : ℚ) - v))).sum
          / (data.length : ℚ) ∧
      x.Variance.evalVariance = true ∧ x.Variance.evalStandardDeviation = false ∧
      x.Variance.err = none := by
  refine ⟨_, New_eq_some data hne, ?_⟩
  have h := foldl_add_eq_sum (fun v => v) data 0
  simp only [List.map_id', zero_add] at h
  simp [XRecord.Variance, XRecord.Mean, XRecord.Total, h, foldl_add_eq_sum]

/-! ## C4: total -/

/-- C4: for a non-empty slice, `Total()` on the fresh series stores the sum of
the elements, and a permutation of the slice gives the same `Register.Total`. -/
theorem C4_total_is_sum_any_order (data1 data2 : List ℚ) (hne : data1 ≠ [])
    (hp : data1.Perm data2) :
    (New data1).map (fun x => x.Total.Register.Total) = some data1.sum ∧
    (New data2).map (fun x => x.Total.Register.Total) = some data2.sum ∧
    (New data1).map (fun x => x.Total.Register.Total)
      = (New data2).map (fun x => x.Total.Register.Total) := by
  have hne2 : data2 ≠ [] := by
    rintro rfl
    exact hne hp.eq_nil
  have h1 := Total_fresh data1 hne
  have h2 := Total_fresh data2 hne2
  refine ⟨h1, h2, ?_⟩
  rw [h1, h2, hp.sum_eq]

/-- C4 at `[1,2,3]` and its permutation `[3,1,2]`: both totals are 6. -/
theorem C4_total_is_sum_any_order_witness :
    (New [1, 2, 3]).map (fun x => x.Total.Register.Total) = some 6 ∧
    (New [3, 1, 2]).map (fun x => x.Total.Register.Total) = some 6 := by
  have hp : ([1, 2, 3] : List ℚ).Perm [3, 1, 2] :=
    (List.perm_append_comm : ([1, 2] ++ [3] : List ℚ).Perm ([3] ++ [1, 2]))
  obtain ⟨h1, h2, -⟩ := C4_total_is_sum_any_order [1, 2, 3] [3, 1, 2] (by simp) hp
  refine ⟨?_, ?_⟩
  · rw [h1]; norm_num
  · rw [h2]; norm_num

/-! ## C5: constant sequences -/

/-- C5: for a non-empty slice whose elements all equal `c`, after `Variance()`
and `StandardDeviation()` on the fresh series, `Register.Variance` is the sum of
the squared deviations from the mean divided by the length, and both it and
`Register.StandardDeviation` are 0. `math.Sqrt` enters through `sqrt 0 = 0`. -/
theorem C5_constant_sequence_zero_variance (sqrt : ℚ → ℚ) (hs : sqrt 0 = 0)
    (data : List ℚ) (c : ℚ) (hne : data ≠ []) (hc : ∀ v ∈ data, v = c) :
    ∃ x, New data = some x ∧
      ((x.Variance).StandardDeviation sqrt).Register.Variance =
        (data.map (fun v =>
          (data.sum / (data.length : ℚ) - v) * (data.sum / (data.length : ℚ) - v))).sum
          / (data.length : ℚ) ∧
      ((x.Variance).StandardDeviation sqrt).Register.Variance = 0 ∧
      ((x.Variance).StandardDeviation sqrt).Register.StandardDeviation = 0 := by
  obtain ⟨x, hx, -, -, hv, hfv, hfs, herr⟩ := Variance_fresh data hne
  have hlen : (data.length : ℚ) ≠ 0 := by
    have : data.length ≠ 0 := by simpa using hne
    exact_mod_cast this
  have hsum : data.sum = (data.length : ℚ) * c := by
    rw [List.sum_eq_card_nsmul data c hc]
    simp
  have hmean : data.sum / (data.length : ℚ) = c := by
    rw [hsum]
    field_simp
  have hzero : (data.map (fun v =>
      (data.sum / (data.length : ℚ) - v) * (data.sum / (data.length : ℚ) - v))).sum = 0 := by
    apply List.sum_eq_zero
    intro y hy
    obtain ⟨v, hv, rfl⟩ := List.mem_map.mp hy
    rw [hmean, hc v hv]
    ring
  have hsd : ((x.Variance).StandardDeviation sqrt).Register.Variance
      = x.Variance.Register.Variance := by
    simp [XRecord.StandardDeviation, hfv, hfs, herr]
  have hsd2 : ((x.Variance).StandardDeviation sqrt).Register.StandardDeviation
      = sqrt x.Variance.Register.Variance := by
    simp [XRecord.StandardDeviation, hfv, hfs, herr]
  refine ⟨x, hx, ?_, ?_, ?_⟩
  · rw [hsd, hv]
  · rw [hsd, hv, hzero, zero_div]
  · rw [hsd2, hv, hzero, zero_div, hs]

/-- C5 at `[2,2,2]`, with the rational square root of the floors of numerator
and denominator standing for `math.Sqrt`. -/
theorem C5_constant_sequence_zero_variance_witness :
    ∃ x, New [2, 2, 2] = some x ∧
      ((x.Variance).StandardDeviation
        (fun q => (Nat.sqrt q.num.toNat : ℚ) / (Nat.sqrt q.den : ℚ))).Register.Variance = 0 ∧
      ((x.Variance).StandardDeviation
        (fun q => (Nat.sqrt q.num.toNat : ℚ) / (Nat.sqrt q.den : ℚ))).Register.StandardDeviation
        = 0 := by
  obtain ⟨x, hx, -, h1, h2⟩ :=
    C5_constant_sequence_zero_variance
      (fun q => (Nat.sqrt q.num.toNat : ℚ) / (Nat.sqrt q.den : ℚ)) (by simp)
      [2, 2, 2] 2 (by simp) (by simp)
  exact ⟨x, hx, h1, h2⟩

/-! ## Modes leaves the other register fields alone -/

theorem Modes_Total (x : XRecord) : x.Modes.Register.Total = x.Register.Total := by
  unfold XRecord.Modes; dsimp only; split_ifs <;> rfl

theorem Modes_Mean (x : XRecord) : x.Modes.Register.Mean = x.Register.Mean := by
  unfold XRecord.Modes; dsimp only; split_ifs <;> rfl

theorem Modes_Median (x : XRecord) : x.Modes.Register.Median = x.Register.Median := by
  unfold XRecord.Modes; dsimp only; split_ifs <;> rfl

theorem Modes_Range (x : XRecord) : x.Modes.Register.Range = x.Register.Range := by
  unfold XRecord.Modes; dsimp only; split_ifs <;> rfl

theorem Modes_Variance (x : XRecord) : x.Modes.Register.Variance = x.Register.Variance := by
  unfold XRecord.Modes; dsimp only; split_ifs <;> rfl

theorem Modes_StandardDeviation (x : XRecord) :
    x.Modes.Register.StandardDeviation = x.Register.StandardDeviation := by
  unfold XRecord.Modes; dsimp only; split_ifs <;> rfl

theorem Modes_SortedMedian (x : XRecord) :
    x.Modes.Register.SortedMedian = x.Register.SortedMedian := by
  unfold XRecord.Modes; dsimp only; split_ifs <;> rfl

theorem Modes_MaxIndices (x : XRecord) :
    x.Modes.Register.MaxIndices = x.Register.MaxIndices := by
  unfold XRecord.Modes; dsimp only; split_ifs <;> rfl

theorem Modes_MaxValue (x : XRecord) : x.Modes.Register.MaxValue = x.Register.MaxValue := by
  unfold XRecord.Modes; dsimp only; split_ifs <;> rfl

theorem Modes_MinIndices (x : XRecord) :
    x.Modes.Register.MinIndices = x.Register.MinIndices := by
  unfold XRecord.Modes; dsimp only; split_ifs <;> rfl

theorem Modes_MinValue (x : XRecord) : x.Modes.Register.MinValue = x.Register.MinValue := by
  unfold XRecord.Modes; dsimp only; split_ifs <;> rfl

/-! ## RunAll on a fresh series -/

/-- What `RunAll()` leaves in the register of a fresh series: the extreme
values are read at the two ends of the sorted slice. -/
theorem RunAll_fresh (sqrt : ℚ → ℚ) (data : List ℚ) (hne : data ≠ []) :
    ∃ x, New data = some x ∧ ∃ M m,
      idx (sortFloat64s data) ((data.length : Int) - 1) = some M ∧
      idx (sortFloat64s data) 0 = some m ∧
      ∃ y, x.RunAll sqrt = some y ∧
      y.Register.MaxValue = M ∧ y.Register.MinValue = m ∧
      y.Register.Range = M - m ∧
      y.Register.MaxIndices
        = (if (data.length : Int) = 1 then [0] else scanIndices M data 0 []) ∧
      y.Register.MinIndices
        = (if (data.length : Int) = 1 then [0] else scanIndices m data 0 []) ∧
      y.Register.Total = data.sum ∧
      y.Register.Mean = data.sum / (data.length : ℚ) ∧
      y.Register.Variance =
        (data.map (fun v =>
          (data.sum / (data.length : ℚ) - v) * (data.sum / (data.length : ℚ) - v))).sum
          / (data.length : ℚ) ∧
      y.Register.StandardDeviation = sqrt y.Register.Variance := by
  have hpos : 0 < data.length := List.length_pos.mpr hne
  have hs := sortFloat64s_length data
  obtain ⟨M, hM, -⟩ :=
    idx_eq_some (sortFloat64s data) ((data.length : Int) - 1) (by omega) (by omega)
  obtain ⟨m, hm, -⟩ := idx_eq_some (sortFloat64s data) 0 (by omega) (by omega)
  have h := foldl_add_eq_sum (fun v => v) data 0
  simp only [List.map_id', zero_add] at h
  refine ⟨_, New_eq_some data hne, M, m, hM, hm, ?_⟩
  by_cases h1 : (data.length : Int) = 1
  · obtain ⟨v, hv, -⟩ := idx_eq_some data 0 (by omega) (by omega)
    have hMm : M = m := by
      have h2 := hM
      rw [h1, sub_self, hm] at h2
      exact (Option.some.inj h2).symm
    have hl : (data.length : ℚ) = 1 := by exact_mod_cast h1
    subst hMm
    simp [XRecord.RunAll, XRecord.validate, XRecord.Total, XRecord.StandardDeviation,
        XRecord.Variance, XRecord.Mean, XRecord.Range, XRecord.Max, XRecord.Min,
        XRecord.MaxWithIndices, XRecord.MinWithIndices, XRecord.Median, hM, hm, h1, hv,
        Modes_Total, Modes_Mean, Modes_Range, Modes_Variance, Modes_StandardDeviation,
        Modes_MaxIndices, Modes_MaxValue, Modes_MinIndices, Modes_MinValue, h, hl,
        foldl_add_eq_sum]
  · have h2 : 2 ≤ data.length := by omega
    obtain ⟨a, ha, -⟩ := idx_eq_some data ((data.length : Int) / 2) (by omega) (by omega)
    obtain ⟨b, hb, -⟩ := idx_eq_some data ((data.length : Int) / 2 - 1) (by omega) (by omega)
    obtain ⟨c, hc, -⟩ :=
      idx_eq_some (sortFloat64s data) ((data.length : Int) / 2) (by omega) (by omega)
    obtain ⟨d, hd, -⟩ :=
      idx_eq_some (sortFloat64s data) ((data.length : Int) / 2 - 1) (by omega) (by omega)
    simp [XRecord.RunAll, XRecord.validate, XRecord.Total, XRecord.StandardDeviation,
        XRecord.Variance, XRecord.Mean, XRecord.Range, XRecord.Max, XRecord.Min,
        XRecord.MaxWithIndices, XRecord.MinWithIndices, XRecord.Median, hM, hm, h1,
        ha, hb, hc, hd,
        Modes_Total, Modes_Mean, Modes_Range, Modes_Variance, Modes_StandardDeviation,
        Modes_MaxIndices, Modes_MaxValue, Modes_MinIndices, Modes_MinValue, h,
        foldl_add_eq_sum]

/-! ## The ends of the sorted slice -/

theorem idx_some_iff (s : List ℚ) (i : Int) (v : ℚ) :
    idx s i = some v ↔ 0 ≤ i ∧ s[i.toNat]? = some v := by
  unfold idx
  split_ifs with h
  · constructor
    · intro h'
      cases h'
    · rintro ⟨h0, -⟩
      omega
  · constructor
    · intro h'
      exact ⟨by omega, h'⟩
    · rintro ⟨-, h'⟩
      exact h'

theorem idx_mem (s : List ℚ) (i : Int) (v : ℚ) (h : idx s i = some v) : v ∈ s := by
  obtain ⟨-, h'⟩ := (idx_some_iff s i v).mp h
  exact List.mem_iff_getElem?.mpr ⟨_, h'⟩

/-- In an ascending slice an earlier position holds a value no larger than a
later one. -/
theorem sorted_idx_le (s : List ℚ) (hs : s.Sorted (· ≤ ·)) (i j : Int) (a b : ℚ)
    (hij : i ≤ j) (ha : idx s i = some a) (hb : idx s j = some b) : a ≤ b := by
  obtain ⟨hi0, ha'⟩ := (idx_some_iff s i a).mp ha
  obtain ⟨-, hb'⟩ := (idx_some_iff s j b).mp hb
  obtain ⟨hia, rfl⟩ := List.getElem?_eq_some_iff.mp ha'
  obtain ⟨hjb, rfl⟩ := List.getElem?_eq_some_iff.mp hb'
  have hle : (⟨i.toNat, hia⟩ : Fin s.length) ≤ ⟨j.toNat, hjb⟩ := by
    show i.toNat ≤ j.toNat
    omega
  exact hs.rel_get_of_le hle

/-- The last element of the sorted slice is the maximum of the data. -/
theorem sortFloat64s_last_is_max (data : List ℚ) (M : ℚ)
    (h : idx (sortFloat64s data) ((data.length : Int) - 1) = some M) :
    M ∈ data ∧ ∀ v ∈ data, v ≤ M := by
  refine ⟨(sortFloat64s_perm data).mem_iff.mp (idx_mem _ _ _ h), ?_⟩
  intro v hv
  have hv' : v ∈ sortFloat64s data := (sortFloat64s_perm data).mem_iff.mpr hv
  obtain ⟨k, hk⟩ := List.mem_iff_getElem?.mp hv'
  obtain ⟨hlt, -⟩ := List.getElem?_eq_some_iff.mp hk
  rw [sortFloat64s_length] at hlt
  have hk' : idx (sortFloat64s data) (k : Int) = some v :=
    (idx_some_iff _ _ _).mpr ⟨by omega, by simpa using hk⟩
  exact sorted_idx_le _ (sortFloat64s_sorted data) _ _ _ _ (by omega) hk' h

/-- The first element of the sorted slice is the minimum of the data. -/
theorem sortFloat64s_first_is_min (data : List ℚ) (m : ℚ)
    (h : idx (sortFloat64s data) 0 = some m) :
    m ∈ data ∧ ∀ v ∈ data, m ≤ v := by
  refine ⟨(sortFloat64s_perm data).mem_iff.mp (idx_mem _ _ _ h), ?_⟩
  intro v hv
  have hv' : v ∈ sortFloat64s data := (sortFloat64s_perm data).mem_iff.mpr hv
  obtain ⟨k, hk⟩ := List.mem_iff_getElem?.mp hv'
  have hk' : idx (sortFloat64s data) (k : Int) = some v :=
    (idx_some_iff _ _ _).mpr ⟨by omega, by simpa using hk⟩
  exact sorted_idx_le _ (sortFloat64s_sorted data) _ _ _ _ (by omega) h hk'

/-! ## C6: memoization flags -/

/-- C6 (code defect): from `New([5])`, `Min()` sets the flag `evalMax` (and
leaves `evalMin` unset) while `Register.MaxValue` still holds its initial 0;
`Max()` then returns at once, so `Register.MaxValue` stays 0 although the last
element of `sortedData`, the maximum of the data, is 5. -/
theorem C6_Min_sets_evalMax_flag :
    ∃ x, New [5] = some x ∧ ∃ y, x.Min = some y ∧
      y.evalMax = true ∧ y.evalMin = false ∧ y.Register.MaxValue = 0 ∧
      ∃ z, y.Max = some z ∧ z.evalMax = true ∧ z.Register.MaxValue = 0 ∧
        idx z.sortedData (z.length - 1) = some 5 := by
  refine ⟨_, New_eq_some _ (by simp), ?_⟩
  simp [XRecord.Min, XRecord.Max, idx, sortFloat64s]

/-! ## C7: extremes and range after RunAll -/

/-- C7: for a non-empty slice, after `RunAll()` on the fresh series
`Register.MaxValue` is the maximum of the data, `Register.MinValue` is the
minimum, `Register.Range` is their difference, and the range of a one-element
slice is 0. -/
theorem C7_RunAll_max_min_range (sqrt : ℚ → ℚ) (data : List ℚ) (hne : data ≠ []) :
    ∃ x y, New data = some x ∧ x.RunAll sqrt = some y ∧
      y.Register.MaxValue ∈ data ∧ (∀ v ∈ data, v ≤ y.Register.MaxValue) ∧
      y.Register.MinValue ∈ data ∧ (∀ v ∈ data, y.Register.MinValue ≤ v) ∧
      y.Register.Range = y.Register.MaxValue - y.Register.MinValue ∧
      (data.length = 1 → y.Register.Range = 0) := by
  obtain ⟨x, hx, M, m, hM, hm, y, hy, hmax, hmin, hr, -⟩ := RunAll_fresh sqrt data hne
  obtain ⟨hM1, hM2⟩ := sortFloat64s_last_is_max data M hM
  obtain ⟨hm1, hm2⟩ := sortFloat64s_first_is_min data m hm
  refine ⟨x, y, hx, hy, ?_, ?_, ?_, ?_, ?_, ?_⟩
  · rw [hmax]; exact hM1
  · rw [hmax]; exact hM2
  · rw [hmin]; exact hm1
  · rw [hmin]; exact hm2
  · rw [hmax, hmin]; exact hr
  · intro h1
    have hMm : M = m := by
      have h2 := hM
      rw [h1] at h2
      simp only [Nat.cast_one, sub_self] at h2
      rw [hm] at h2
      exact (Option.some.inj h2).symm
    rw [hr, hMm, sub_self]

/-- C7 at `[5,7,7,1]`: the maximum is 7, the minimum 1 and the range 6. -/
theorem C7_RunAll_max_min_range_witness :
    ∃ x y, New [5, 7, 7, 1] = some x ∧ x.RunAll (fun q => q) = some y ∧
      y.Register.MaxValue = 7 ∧ y.Register.MinValue = 1 ∧ y.Register.Range = 6 := by
  obtain ⟨x, y, hx, hy, h1, h2, h3, h4, h5, -⟩ :=
    C7_RunAll_max_min_range (fun q => q) [5, 7, 7, 1] (by simp)
  have hmax : y.Register.MaxValue = 7 := by
    have h7 := h2 7 (by simp)
    simp only [List.mem_cons, List.mem_singleton, List.not_mem_nil, or_false] at h1
    rcases h1 with h | h | h | h <;> rw [h] at h7 ⊢ <;> norm_num at h7 ⊢
  have hmin : y.Register.MinValue = 1 := by
    have h7 := h4 1 (by simp)
    simp only [List.mem_cons, List.mem_singleton, List.not_mem_nil, or_false] at h3
    rcases h3 with h | h | h | h <;> rw [h] at h7 ⊢ <;> norm_num at h7 ⊢
  refine ⟨x, y, hx, hy, hmax, hmin, ?_⟩
  rw [h5, hmax, hmin]
  norm_num

/-! ## C9: one-element sequences -/

/-- C9: for a one-element slice `[v]`, after `RunAll()` on `New([v])` both
medians, the maximum and the minimum equal `v`, and both index lists are `[0]`. -/
theorem C9_single_element (sqrt : ℚ → ℚ) (v : ℚ) :
    ∃ x, New [v] = some x ∧ ∃ y, x.RunAll sqrt = some y ∧
      y.Register.Median = v ∧ y.Register.SortedMedian = v ∧
      y.Register.MaxValue = v ∧ y.Register.MinValue = v ∧
      y.Register.MaxIndices = [0] ∧ y.Register.MinIndices = [0] := by
  refine ⟨_, New_eq_some _ (by simp), ?_⟩
  simp [XRecord.RunAll, XRecord.validate, XRecord.Total, XRecord.StandardDeviation,
    XRecord.Variance, XRecord.Mean, XRecord.Range, XRecord.Max, XRecord.Min,
    XRecord.MaxWithIndices, XRecord.MinWithIndices, XRecord.Median, idx, sortFloat64s,
    Modes_Median, Modes_SortedMedian, Modes_MaxIndices, Modes_MaxValue,
    Modes_MinIndices, Modes_MinValue]

/-! ## The occurrence map of Modes -/

theorem mapGet_mapIncr_self (k : ℚ) (occ : List (ℚ × Int)) :
    mapGet k (mapIncr k occ) = mapGet k occ + 1 := by
  induction occ with
  | nil => simp [mapIncr, mapGet]
  | cons p rest ih =>
    obtain ⟨k1, c⟩ := p
    by_cases h : k1 = k
    · simp [mapIncr, mapGet, h]
    · simp [mapIncr, mapGet, h, ih]

theorem mapGet_mapIncr_ne (k k' : ℚ) (occ : List (ℚ × Int)) (hne : k' ≠ k) :
    mapGet k' (mapIncr k occ) = mapGet k' occ := by
  induction occ with
  | nil =>
    have : ¬ k = k' := fun h => hne h.symm
    simp [mapIncr, mapGet, this]
  | cons p rest ih =>
    obtain ⟨k1, c⟩ := p
    by_cases h : k1 = k
    · have : ¬ k = k' := fun h => hne h.symm
      simp [mapIncr, mapGet, h, this]
    · by_cases h' : k1 = k'
      · subst h'
        simp [mapIncr, mapGet, h]
      · simp [mapIncr, mapGet, h, h', ih]

/-- Incrementing a key keeps the keys in place and appends a new key at the end. -/
theorem keys_mapIncr (k : ℚ) (occ : List (ℚ × Int)) :
    (mapIncr k occ).map Prod.fst =
      if k ∈ occ.map Prod.fst then occ.map Prod.fst else occ.map Prod.fst ++ [k] := by
  induction occ with
  | nil => simp [mapIncr]
  | cons p rest ih =>
    obtain ⟨k1, c⟩ := p
    by_cases h : k1 = k
    · simp [mapIncr, h]
    · have h' : ¬ k = k1 := fun e => h e.symm
      by_cases hm : k ∈ rest.map Prod.fst
      · rw [if_pos hm] at ih
        have hm' : k ∈ ((k1, c) :: rest).map Prod.fst := by
          simp only [List.map_cons, List.mem_cons]
          exact Or.inr hm
        rw [if_pos hm']
        simp [mapIncr, h, ih]
      · rw [if_neg hm] at ih
        have hm' : ¬ k ∈ ((k1, c) :: rest).map Prod.fst := by
          simp only [List.map_cons, List.mem_cons, not_or]
          exact ⟨h', hm⟩
        rw [if_neg hm']
        simp [mapIncr, h, ih]

theorem mapGet_of_not_mem (k : ℚ) (occ : List (ℚ × Int)) (h : k ∉ occ.map Prod.fst) :
    mapGet k occ = 0 := by
  induction occ with
  | nil => rfl
  | cons p rest ih =>
    obtain ⟨k1, c⟩ := p
    simp only [List.map_cons, List.mem_cons, not_or] at h
    have h1 : ¬ k1 = k := fun e => h.1 e.symm
    simp [mapGet, h1, ih h.2]

/-- With distinct keys, an entry of the map is the value read at its key. -/
theorem mem_iff_mapGet (occ : List (ℚ × Int)) (hnd : (occ.map Prod.fst).Nodup) (k : ℚ)
    (v : Int) : (k, v) ∈ occ ↔ k ∈ occ.map Prod.fst ∧ mapGet k occ = v := by
  induction occ with
  | nil => simp
  | cons p rest ih =>
    obtain ⟨k1, c⟩ := p
    simp only [List.map_cons, List.nodup_cons] at hnd
    by_cases h : k1 = k
    · subst h
      have hnot : ∀ w, (k1, w) ∉ rest := by
        intro w hw
        exact hnd.1 (List.mem_map.mpr ⟨(k1, w), hw, rfl⟩)
      simp [mapGet, hnot, eq_comm]
    · have h' : ¬ k = k1 := fun e => h e.symm
      simp [mapGet, h, h', ih hnd.2]

/-- The collecting loop appends the keys whose count equals `r`, in map order. -/
theorem modesCollect_eq (r : Int) (occ : List (ℚ × Int)) (out : List ℚ) :
    modesCollect r occ out = out ++ (occ.filter (fun kv => kv.2 = r)).map Prod.fst := by
  induction occ generalizing out with
  | nil => simp [modesCollect]
  | cons p rest ih =>
    obtain ⟨k, v⟩ := p
    by_cases h : v = r
    · simp [modesCollect, ih, h]
    · simp [modesCollect, ih, h]

theorem mem_keys_mapIncr (k k' : ℚ) (occ : List (ℚ × Int)) :
    k' ∈ (mapIncr k occ).map Prod.fst ↔ k' ∈ occ.map Prod.fst ∨ k' = k := by
  rw [keys_mapIncr]
  split_ifs with h
  · constructor
    · exact Or.inl
    · rintro (h' | rfl)
      · exact h'
      · exact h
  · simp

theorem nodup_keys_mapIncr (k : ℚ) (occ : List (ℚ × Int))
    (hnd : (occ.map Prod.fst).Nodup) : ((mapIncr k occ).map Prod.fst).Nodup := by
  rw [keys_mapIncr]
  split_ifs with h
  · exact hnd
  · rw [List.nodup_append]
    refine ⟨hnd, List.nodup_singleton k, ?_⟩
    intro a ha hk
    rw [List.mem_singleton] at hk
    subst hk
    exact h ha

/-- The counting loop of `Modes()`: started from a map with distinct keys and a
running maximum `r` that bounds every count, it ends with distinct keys, every
count raised by the number of occurrences in the slice, and the running maximum
equal to the largest count (or still 0). -/
theorem modes_loop (l : List ℚ) : ∀ (occ : List (ℚ × Int)) (r : Int),
    (occ.map Prod.fst).Nodup → (∀ k, 0 ≤ mapGet k occ) → (∀ k, mapGet k occ ≤ r) →
    (r = 0 ∨ ∃ k, k ∈ occ.map Prod.fst ∧ mapGet k occ = r) →
    ((l.foldl modesStep (occ, r)).1.map Prod.fst).Nodup ∧
    (∀ k, mapGet k (l.foldl modesStep (occ, r)).1 = mapGet k occ + (l.count k : Int)) ∧
    (∀ k, k ∈ (l.foldl modesStep (occ, r)).1.map Prod.fst ↔
      k ∈ occ.map Prod.fst ∨ k ∈ l) ∧
    (∀ k, mapGet k (l.foldl modesStep (occ, r)).1 ≤ (l.foldl modesStep (occ, r)).2) ∧
    ((l.foldl modesStep (occ, r)).2 = 0 ∨
      ∃ k, k ∈ (l.foldl modesStep (occ, r)).1.map Prod.fst ∧
        mapGet k (l.foldl modesStep (occ, r)).1 = (l.foldl modesStep (occ, r)).2) := by
  induction l with
  | nil =>
    intro occ r hnd _ hle hex
    exact ⟨hnd, fun k => by simp, fun k => by simp, hle, hex⟩
  | cons i l ih =>
    intro occ r hnd h0 hle hex
    have hself := mapGet_mapIncr_self i occ
    have hstep : modesStep (occ, r) i =
        (mapIncr i occ, if mapGet i occ + 1 > r then mapGet i occ + 1 else r) := by
      simp [modesStep, hself]
    rw [List.foldl_cons, hstep]
    have hnd' := nodup_keys_mapIncr i occ hnd
    have h0' : ∀ k, 0 ≤ mapGet k (mapIncr i occ) := by
      intro k
      by_cases hk : k = i
      · subst hk
        rw [hself]
        have := h0 k
        omega
      · rw [mapGet_mapIncr_ne i k occ hk]
        exact h0 k
    have hle' : ∀ k, mapGet k (mapIncr i occ)
        ≤ (if mapGet i occ + 1 > r then mapGet i occ + 1 else r) := by
      intro k
      by_cases hk : k = i
      · subst hk
        rw [hself]
        split_ifs <;> omega
      · rw [mapGet_mapIncr_ne i k occ hk]
        have := hle k
        split_ifs <;> omega
    have hex' : (if mapGet i occ + 1 > r then mapGet i occ + 1 else r) = 0 ∨
        ∃ k, k ∈ (mapIncr i occ).map Prod.fst ∧
          mapGet k (mapIncr i occ) = (if mapGet i occ + 1 > r then mapGet i occ + 1 else r) := by
      right
      by_cases hc : mapGet i occ + 1 > r
      · rw [if_pos hc]
        exact ⟨i, (mem_keys_mapIncr i i occ).mpr (Or.inr rfl), hself⟩
      · rw [if_neg hc]
        rcases hex with hr | ⟨k, hk, hkr⟩
        · have := h0 i
          omega
        · have hki : k ≠ i := by
            rintro rfl
            omega
          exact ⟨k, (mem_keys_mapIncr i k occ).mpr (Or.inl hk),
            by rw [mapGet_mapIncr_ne i k occ hki, hkr]⟩
    obtain ⟨g1, g2, g3, g4, g5⟩ := ih (mapIncr i occ) _ hnd' h0' hle' hex'
    refine ⟨g1, ?_, ?_, g4, g5⟩
    · intro k
      rw [g2 k]
      by_cases hk : k = i
      · subst hk
        rw [hself, List.count_cons_self]
        push_cast
        ring
      · rw [mapGet_mapIncr_ne i k occ hk, List.count_cons_of_ne hk]
    · intro k
      rw [g3 k, mem_keys_mapIncr, List.mem_cons]
      tauto

/-- The map of the counting loop has as many entries as the slice has elements
exactly when the elements are pairwise distinct. -/
theorem keys_length_eq_iff_nodup (data keys : List ℚ) (hnd : keys.Nodup)
    (hmem : ∀ k, k ∈ keys ↔ k ∈ data) : keys.length = data.length ↔ data.Nodup := by
  constructor
  · intro hlen
    have hsub : keys ⊆ data := fun k hk => (hmem k).mp hk
    have hperm : keys.Perm data :=
      (List.subperm_of_subset hnd hsub).perm_of_length_le (le_of_eq hlen.symm)
    exact hperm.nodup_iff.mp hnd
  · intro hd
    exact ((List.perm_ext_iff_of_nodup hnd hd).mpr hmem).length_eq

/-- What `Modes()` stores on a fresh series, in terms of the counting loop. -/
theorem Modes_fresh (data : List ℚ) (hne : data ≠ []) :
    ∃ x, New data = some x ∧
      x.Modes.Register.Modes =
        (if ((data.foldl modesStep ([], 0)).1.length : Int) = (data.length : Int) then []
         else modesCollect (data.foldl modesStep ([], 0)).2 (data.foldl modesStep ([], 0)).1 []) ∧
      x.Modes.Register.ModeRepeatCount =
        (if ((data.foldl modesStep ([], 0)).1.length : Int) = (data.length : Int) then 0
         else (data.foldl modesStep ([], 0)).2) := by
  refine ⟨_, New_eq_some data hne, ?_, ?_⟩
  · simp only [XRecord.Modes]
    split_ifs <;> simp_all
  · simp only [XRecord.Modes]
    split_ifs <;> simp_all

/-! ## C8: modes -/

/-- C8: for a non-empty slice, after `Modes()` on the fresh series: if the
elements are pairwise distinct, `Register.Modes` is empty and
`Register.ModeRepeatCount` is 0; otherwise `Register.ModeRepeatCount` is the
largest number of occurrences of a value of the slice and `Register.Modes` holds,
without duplicates, exactly the values that occur that many times. -/
theorem C8_modes_of_fresh_series (data : List ℚ) (hne : data ≠ []) :
    ∃ x, New data = some x ∧
      (data.Nodup →
        x.Modes.Register.Modes = [] ∧ x.Modes.Register.ModeRepeatCount = 0) ∧
      (¬ data.Nodup →
        (∃ v ∈ data, (data.count v : Int) = x.Modes.Register.ModeRepeatCount) ∧
        (∀ v, (data.count v : Int) ≤ x.Modes.Register.ModeRepeatCount) ∧
        x.Modes.Register.Modes.Nodup ∧
        (∀ v, v ∈ x.Modes.Register.Modes ↔
          v ∈ data ∧ (data.count v : Int) = x.Modes.Register.ModeRepeatCount)) := by
  obtain ⟨x, hx, hmodes, hcount⟩ := Modes_fresh data hne
  obtain ⟨g1, g2, g3, g4, g5⟩ := modes_loop data [] 0 (by simp) (by simp [mapGet])
    (by simp [mapGet]) (Or.inl rfl)
  have g2' : ∀ k, mapGet k (data.foldl modesStep ([], 0)).1 = (data.count k : Int) := by
    intro k
    rw [g2 k]
    simp [mapGet]
  have g3' : ∀ k, k ∈ (data.foldl modesStep ([], 0)).1.map Prod.fst ↔ k ∈ data := by
    intro k
    rw [g3 k]
    simp
  have hlen : ((data.foldl modesStep ([], 0)).1.length : Int) = (data.length : Int)
      ↔ data.Nodup := by
    have h := keys_length_eq_iff_nodup data _ g1 g3'
    rw [List.length_map] at h
    rw [← h]
    exact Nat.cast_inj
  refine ⟨x, hx, ?_, ?_⟩
  · intro hd
    rw [hmodes, hcount, if_pos (hlen.mpr hd), if_pos (hlen.mpr hd)]
    exact ⟨rfl, rfl⟩
  · intro hd
    have hneg : ¬ ((data.foldl modesStep ([], 0)).1.length : Int) = (data.length : Int) :=
      fun h => hd (hlen.mp h)
    rw [hmodes, hcount, if_neg hneg, if_neg hneg, modesCollect_eq, List.nil_append]
    refine ⟨?_, ?_, ?_, ?_⟩
    · rcases g5 with h0 | ⟨k, hk, hkr⟩
      · obtain ⟨a, t, rfl⟩ := List.exists_cons_of_ne_nil hne
        have h1 := g4 a
        rw [g2' a, h0, List.count_cons_self] at h1
        push_cast at h1
        omega
      · exact ⟨k, (g3' k).mp hk, by rw [← g2' k, hkr]⟩
    · intro v
      rw [← g2' v]
      exact g4 v
    · exact (g1.sublist ((List.filter_sublist _).map Prod.fst))
    · intro v
      rw [List.mem_map]
      constructor
      · rintro ⟨⟨k, c⟩, hkc, rfl⟩
        rw [List.mem_filter] at hkc
        obtain ⟨hin, hc⟩ := hkc
        have hc' : c = (data.foldl modesStep ([], 0)).2 := by simpa using hc
        obtain ⟨hk, hget⟩ := (mem_iff_mapGet _ g1 k c).mp hin
        exact ⟨(g3' k).mp hk, by rw [← g2' k, hget, hc']⟩
      · rintro ⟨hv, hc⟩
        refine ⟨(v, (data.foldl modesStep ([], 0)).2), ?_, rfl⟩
        rw [List.mem_filter]
        refine ⟨(mem_iff_mapGet _ g1 v _).mpr ⟨(g3' v).mpr hv, ?_⟩, by simp⟩
        rw [g2' v, hc]

/-- C8 at `[1,1,2,2,3]`: the repeat count is 2 and the modes are exactly 1 and 2;
and at `[1,2,3]`: no modes and repeat count 0. -/
theorem C8_modes_of_fresh_series_witness :
    (∃ x, New [1, 1, 2, 2, 3] = some x ∧ x.Modes.Register.ModeRepeatCount = 2 ∧
      x.Modes.Register.Modes.Nodup ∧
      ∀ v, v ∈ x.Modes.Register.Modes ↔ v = 1 ∨ v = 2) ∧
    (∃ x, New [1, 2, 3] = some x ∧ x.Modes.Register.Modes = [] ∧
      x.Modes.Register.ModeRepeatCount = 0) := by
  have c1 : List.count (1 : ℚ) [1, 1, 2, 2, 3] = 2 := by
    simp [List.count_cons]
  have c2 : List.count (2 : ℚ) [1, 1, 2, 2, 3] = 2 := by
    simp [List.count_cons]
  have c3 : List.count (3 : ℚ) [1, 1, 2, 2, 3] = 1 := by
    simp [List.count_cons]
  constructor
  · obtain ⟨x, hx, -, h⟩ := C8_modes_of_fresh_series [1, 1, 2, 2, 3] (by simp)
    obtain ⟨⟨v, hv, hvc⟩, hle, hnd, hmem⟩ := h (by simp)
    have hr : x.Modes.Register.ModeRepeatCount = 2 := by
      have h1 := hle 1
      rw [c1] at h1
      simp only [List.mem_cons, List.mem_singleton, List.not_mem_nil, or_false] at hv
      rcases hv with h | h | h | h | h <;> subst h
      · rw [c1] at hvc; omega
      · rw [c1] at hvc; omega
      · rw [c2] at hvc; omega
      · rw [c2] at hvc; omega
      · rw [c3] at hvc; omega
    refine ⟨x, hx, hr, hnd, ?_⟩
    intro w
    rw [hmem w, hr]
    constructor
    · rintro ⟨hw, hc⟩
      simp only [List.mem_cons, List.mem_singleton, List.not_mem_nil, or_false] at hw
      rcases hw with h | h | h | h | h
      · exact Or.inl h
      · exact Or.inl h
      · exact Or.inr h
      · exact Or.inr h
      · subst h
        rw [c3] at hc
        omega
    · rintro (h | h) <;> subst h
      · exact ⟨by simp, by rw [c1]; rfl⟩
      · exact ⟨by simp, by rw [c2]; rfl⟩
  · obtain ⟨x, hx, h, -⟩ := C8_modes_of_fresh_series [1, 2, 3] (by simp)
    have hnd : ([1, 2, 3] : List ℚ).Nodup := by
      simp
    exact ⟨x, hx, h hnd⟩

/-! ## C10: construction -/

/-- C10: `New(data)` is `nil` exactly for the empty slice; otherwise the series
has `Length() = len(data) ≥ 1` and `middleIndex = len(data) / 2`, so a series of
length 0 is never built. -/
theorem C10_New_nil_iff_empty (data : List ℚ) :
    (New data = none ↔ data = []) ∧
    (∀ x, New data = some x →
      x.Length = (data.length : Int) ∧ 1 ≤ x.Length ∧
      x.middleIndex = (data.length : Int) / 2 ∧ x.length ≠ 0) := by
  constructor
  · constructor
    · intro h
      by_contra hne
      rw [New_eq_some data hne] at h
      exact Option.some_ne_none _ h
    · rintro rfl
      simp [New]
  · intro x hx
    have hne : data ≠ [] := by
      rintro rfl
      simp [New] at hx
    have hpos : 0 < data.length := List.length_pos.mpr hne
    rw [New_eq_some data hne] at hx
    cases hx
    refine ⟨rfl, ?_, rfl, ?_⟩
    · show (1 : Int) ≤ (data.length : Int)
      omega
    · show (data.length : Int) ≠ 0
      omega

/-! ## C11: the sorted copy -/

/-- C11: for a non-empty slice, `sortedData` of `New(data)` is in ascending
order and is a permutation of `data` of the same length, and the stored `data`
is the input in its original order. -/
theorem C11_sortedData_ascending_perm (data : List ℚ) (hne : data ≠ []) :
    ∃ x, New data = some x ∧
      x.sortedData.Sorted (· ≤ ·) ∧ x.sortedData.Perm data ∧
      x.sortedData.length = data.length ∧ x.data = data :=
  ⟨_, New_eq_some data hne, sortFloat64s_sorted data, sortFloat64s_perm data,
    sortFloat64s_length data, rfl⟩

/-- C11 at `[3,1,2]`: the sorted copy is `[1,2,3]` and the data stays `[3,1,2]`. -/
theorem C11_sortedData_ascending_perm_witness :
    ∃ x, New [3, 1, 2] = some x ∧ x.sortedData = [1, 2, 3] ∧ x.data = [3, 1, 2] := by
  obtain ⟨x, hx, hs, hp, -, hd⟩ := C11_sortedData_ascending_perm [3, 1, 2] (by simp)
  refine ⟨x, hx, ?_, hd⟩
  have h123 : ([1, 2, 3] : List ℚ).Sorted (· ≤ ·) := by
    simp [List.Sorted]
    norm_num
  have hp' : x.sortedData.Perm [1, 2, 3] :=
    hp.trans (List.perm_append_comm : ([3] ++ [1, 2] : List ℚ).Perm ([1, 2] ++ [3]))
  exact List.eq_of_perm_of_sorted hp' hs h123

/-! ## C12: the dependency chain of the standard deviation -/

/-- C12: for a non-empty slice of length `n`, `StandardDeviation()` alone on the
fresh series sets the flags of total, mean, variance and standard deviation and
stores the sum in `Register.Total`, `Total / n` in `Register.Mean`, the mean of
the squared deviations from `Register.Mean` in `Register.Variance`, and
`math.Sqrt` of that in `Register.StandardDeviation`. -/
theorem C12_StandardDeviation_runs_chain (sqrt : ℚ → ℚ) (data : List ℚ)
    (hne : data ≠ []) :
    ∃ x, New data = some x ∧
      (x.StandardDeviation sqrt).evalTotal = true ∧
      (x.StandardDeviation sqrt).evalMean = true ∧
      (x.StandardDeviation sqrt).evalVariance = true ∧
      (x.StandardDeviation sqrt).evalStandardDeviation = true ∧
      (x.StandardDeviation sqrt).Register.Total = data.sum ∧
      (x.StandardDeviation sqrt).Register.Mean =
        (x.StandardDeviation sqrt).Register.Total / (data.length : ℚ) ∧
      (x.StandardDeviation sqrt).Register.Variance =
        (data.map (fun v =>
          ((x.StandardDeviation sqrt).Register.Mean - v)
            * ((x.StandardDeviation sqrt).Register.Mean - v))).sum / (data.length : ℚ) ∧
      (x.StandardDeviation sqrt).Register.StandardDeviation =
        sqrt (x.StandardDeviation sqrt).Register.Variance := by
  refine ⟨_, New_eq_some data hne, ?_⟩
  have h := foldl_add_eq_sum (fun v => v) data 0
  simp only [List.map_id', zero_add] at h
  simp [XRecord.StandardDeviation, XRecord.Variance, XRecord.Mean, XRecord.Total, h,
    foldl_add_eq_sum]

/-- C12 at `[1,3]`, with the identity standing for `math.Sqrt`: total 4, mean 2,
variance 1. -/
theorem C12_StandardDeviation_runs_chain_witness :
    ∃ x, New [1, 3] = some x ∧
      (x.StandardDeviation (fun q => q)).Register.Total = 4 ∧
      (x.StandardDeviation (fun q => q)).Register.Mean = 2 ∧
      (x.StandardDeviation (fun q => q)).Register.Variance = 1 ∧
      (x.StandardDeviation (fun q => q)).Register.StandardDeviation = 1 := by
  obtain ⟨x, hx, -, -, -, -, ht, hm, hv, hs⟩ :=
    C12_StandardDeviation_runs_chain (fun q => q) [1, 3] (by simp)
  have ht' : (x.StandardDeviation (fun q => q)).Register.Total = 4 := by
    rw [ht]; norm_num
  have hm' : (x.StandardDeviation (fun q => q)).Register.Mean = 2 := by
    rw [hm, ht']; norm_num
  have hv' : (x.StandardDeviation (fun q => q)).Register.Variance = 1 := by
    rw [hv, hm']; norm_num
  exact ⟨x, hx, ht', hm', hv', by rw [hs, hv']⟩

/-! ## The frame of the statistic operations -/

theorem Frame.refl (x : XRecord) : Frame x x := by
  simp [Frame]

theorem Frame.trans {x y z : XRecord} (h1 : Frame x y) (h2 : Frame y z) : Frame x z := by
  obtain ⟨a1, a2, a3, a4, a5, a6, f1, f2, f3, f4, f5, f6, f7, f8, f9, f10, f11, f12⟩ := h1
  obtain ⟨b1, b2, b3, b4, b5, b6, g1, g2, g3, g4, g5, g6, g7, g8, g9, g10, g11, g12⟩ := h2
  exact ⟨b1.trans a1, b2.trans a2, b3.trans a3, b4.trans a4, b5.trans a5, b6.trans a6,
    fun h => g1 (f1 h), fun h => g2 (f2 h), fun h => g3 (f3 h), fun h => g4 (f4 h),
    fun h => g5 (f5 h), fun h => g6 (f6 h), fun h => g7 (f7 h), fun h => g8 (f8 h),
    fun h => g9 (f9 h), fun h => g10 (f10 h), fun h => g11 (f11 h), fun h => g12 (f12 h)⟩

theorem Total_frame (x : XRecord) : Frame x x.Total := by
  unfold XRecord.Total
  split_ifs
  · exact Frame.refl x
  · simp [Frame]

theorem Mean_frame (x : XRecord) : Frame x x.Mean := by
  unfold XRecord.Mean
  dsimp only
  split_ifs
  · exact Frame.refl x
  · exact Total_frame x
  · exact Frame.trans (Total_frame x) (by simp [Frame])
  · exact Frame.refl x
  · simp [Frame]

theorem Variance_frame (x : XRecord) : Frame x x.Variance := by
  unfold XRecord.Variance
  dsimp only
  split_ifs
  · exact Frame.refl x
  · exact Mean_frame x
  · exact Frame.trans (Mean_frame x) (by simp [Frame])
  · exact Frame.refl x
  · simp [Frame]

theorem StandardDeviation_frame (sqrt : ℚ → ℚ) (x : XRecord) :
    Frame x (x.StandardDeviation sqrt) := by
  unfold XRecord.StandardDeviation
  dsimp only
  split_ifs
  · exact Frame.refl x
  · exact Variance_frame x
  · exact Frame.trans (Variance_frame x) (by simp [Frame])
  · exact Frame.refl x
  · simp [Frame]

theorem Modes_frame (x : XRecord) : Frame x x.Modes := by
  unfold XRecord.Modes
  dsimp only
  split_ifs <;>
    first
    | exact Frame.refl x
    | simp [Frame]

theorem Max_frame (x y : XRecord) (h : x.Max = some y) : Frame x y := by
  unfold XRecord.Max at h
  split_ifs at h
  · cases h
    exact Frame.refl x
  · split at h
    · cases h
    · cases h
      simp [Frame]

theorem Min_frame (x y : XRecord) (h : x.Min = some y) : Frame x y := by
  unfold XRecord.Min at h
  split_ifs at h
  · cases h
    exact Frame.refl x
  · split at h
    · cases h
    · cases h
      simp [Frame]

theorem MaxWithIndices_frame (x y : XRecord) (h : x.MaxWithIndices = some y) :
    Frame x y := by
  unfold XRecord.MaxWithIndices at h
  split_ifs at h
  · cases h
    exact Frame.refl x
  all_goals
    split at h
    · cases h
    · rename_i x1 heq
      have h1 : Frame x x1 := by
        first
        | exact Max_frame x x1 heq
        | (cases heq; exact Frame.refl x)
      split_ifs at h <;> cases h <;>
        first
        | exact h1
        | (refine Frame.trans h1 ?_; simp [Frame])

theorem MinWithIndices_frame (x y : XRecord) (h : x.MinWithIndices = some y) :
    Frame x y := by
  unfold XRecord.MinWithIndices at h
  split_ifs at h
  · cases h
    exact Frame.refl x
  all_goals
    split at h
    · cases h
    · rename_i x1 heq
      have h1 : Frame x x1 := by
        first
        | exact Min_frame x x1 heq
        | (cases heq; exact Frame.refl x)
      split_ifs at h <;> cases h <;>
        first
        | exact h1
        | (refine Frame.trans h1 ?_; simp [Frame])

theorem Range_frame (x y : XRecord) (h : x.Range = some y) : Frame x y := by
  unfold XRecord.Range at h
  split_ifs at h
  · cases h
    exact Frame.refl x
  all_goals
    split at h
    · cases h
    · rename_i x1 heq
      have h1 : Frame x x1 := by
        first
        | exact Max_frame x x1 heq
        | (cases heq; exact Frame.refl x)
      split_ifs at h
      · cases h
        exact h1
      all_goals
        split at h
        · cases h
        · rename_i x2 heq2
          have h2 : Frame x1 x2 := by
            first
            | exact Min_frame x1 x2 heq2
            | (cases heq2; exact Frame.refl x1)
          split_ifs at h <;> cases h <;>
            first
            | exact Frame.trans h1 h2
            | (refine Frame.trans (Frame.trans h1 h2) ?_; simp [Frame])

theorem Median_frame (x y : XRecord) (sorted : Bool) (h : x.Median sorted = some y) :
    Frame x y := by
  unfold XRecord.Median at h
  split_ifs at h
  · cases h
    exact Frame.refl x
  all_goals
    split at h
    all_goals
      cases h <;> simp [Frame]

theorem Frame.err_eq {x y : XRecord} (h : Frame x y) : y.err = x.err :=
  h.2.2.2.2.2.1

/-! ## A set flag or a set error makes an operation return at once -/

theorem Total_noop (x : XRecord) (h : x.evalTotal = true ∨ x.err ≠ none) : x.Total = x := by
  unfold XRecord.Total
  rcases h with h | h <;> simp [h]

theorem Mean_noop (x : XRecord) (h : x.evalMean = true ∨ x.err ≠ none) : x.Mean = x := by
  unfold XRecord.Mean
  rcases h with h | h <;> simp [h]

theorem Variance_noop (x : XRecord) (h : x.evalVariance = true ∨ x.err ≠ none) :
    x.Variance = x := by
  unfold XRecord.Variance
  rcases h with h | h <;> simp [h]

theorem StandardDeviation_noop (sqrt : ℚ → ℚ) (x : XRecord)
    (h : x.evalStandardDeviation = true ∨ x.err ≠ none) : x.StandardDeviation sqrt = x := by
  unfold XRecord.StandardDeviation
  rcases h with h | h <;> simp [h]

theorem Modes_noop (x : XRecord) (h : x.evalModes = true ∨ x.err ≠ none) : x.Modes = x := by
  unfold XRecord.Modes
  rcases h with h | h <;> simp [h]

theorem Max_noop (x : XRecord) (h : x.evalMax = true ∨ x.err ≠ none) : x.Max = some x := by
  unfold XRecord.Max
  rcases h with h | h <;> simp [h]

theorem Min_noop (x : XRecord) (h : x.evalMin = true ∨ x.err ≠ none) : x.Min = some x := by
  unfold XRecord.Min
  rcases h with h | h <;> simp [h]

theorem MaxWithIndices_noop (x : XRecord)
    (h : x.evalMaxWithIndices = true ∨ x.err ≠ none) : x.MaxWithIndices = some x := by
  unfold XRecord.MaxWithIndices
  rcases h with h | h <;> simp [h]

theorem MinWithIndices_noop (x : XRecord)
    (h : x.evalMinWithIndices = true ∨ x.err ≠ none) : x.MinWithIndices = some x := by
  unfold XRecord.MinWithIndices
  rcases h with h | h <;> simp [h]

theorem Range_noop (x : XRecord) (h : x.evalRange = true ∨ x.err ≠ none) :
    x.Range = some x := by
  unfold XRecord.Range
  rcases h with h | h <;> simp [h]

theorem Median_sorted_noop (x : XRecord) (h : x.evalSortedMedian = true ∨ x.err ≠ none) :
    x.Median true = some x := by
  unfold XRecord.Median
  rcases h with h | h <;> simp [h]

theorem Median_unsorted_noop (x : XRecord) (h : x.evalMedian = true ∨ x.err ≠ none) :
    x.Median false = some x := by
  unfold XRecord.Median
  rcases h with h | h <;> simp [h]

/-! ## An operation on an error-free series sets its flag -/

theorem Total_flag (x : XRecord) : x.Total.evalTotal = true ∨ x.Total.err ≠ none := by
  unfold XRecord.Total
  split_ifs with h
  · simpa using h
  · simp

theorem Mean_flag (x : XRecord) : x.Mean.evalMean = true ∨ x.Mean.err ≠ none := by
  unfold XRecord.Mean
  dsimp only
  split_ifs with h1 h2 h3 h4
  · simpa using h1
  · simp at h3; exact Or.inr h3.2
  · simp
  · simp [h2] at h4
  · simp

theorem Variance_flag (x : XRecord) :
    x.Variance.evalVariance = true ∨ x.Variance.err ≠ none := by
  unfold XRecord.Variance
  dsimp only
  split_ifs with h1 h2 h3 h4
  · simpa using h1
  · simp at h3; exact Or.inr h3.2
  · simp
  · simp [h2] at h4
  · simp

theorem StandardDeviation_flag (sqrt : ℚ → ℚ) (x : XRecord) :
    (x.StandardDeviation sqrt).evalStandardDeviation = true ∨
      (x.StandardDeviation sqrt).err ≠ none := by
  unfold XRecord.StandardDeviation
  dsimp only
  split_ifs with h1 h2 h3 h4
  · simpa using h1
  · simp at h3; exact Or.inr h3.2
  · simp
  · simp [h2] at h4
  · simp

theorem Modes_flag (x : XRecord) : x.Modes.evalModes = true ∨ x.Modes.err ≠ none := by
  unfold XRecord.Modes
  dsimp only
  split_ifs with h1 h2
  · simpa using h1
  · simp
  · simp

theorem Max_flag (x y : XRecord) (h : x.Max = some y) :
    y.evalMax = true ∨ y.err ≠ none := by
  unfold XRecord.Max at h
  split_ifs at h with h1
  · cases h
    simpa using h1
  · split at h
    · cases h
    · cases h
      simp

theorem MaxWithIndices_flag (x y : XRecord) (h : x.MaxWithIndices = some y) :
    y.evalMaxWithIndices = true ∨ y.err ≠ none := by
  unfold XRecord.MaxWithIndices at h
  split_ifs at h with h1
  · cases h
    simpa using h1
  all_goals
    split at h
    · cases h
    · split_ifs at h <;> cases h <;> simp_all

theorem MinWithIndices_flag (x y : XRecord) (h : x.MinWithIndices = some y) :
    y.evalMinWithIndices = true ∨ y.err ≠ none := by
  unfold XRecord.MinWithIndices at h
  split_ifs at h with h1
  · cases h
    simpa using h1
  all_goals
    split at h
    · cases h
    · split_ifs at h <;> cases h <;> simp_all

theorem Range_flag (x y : XRecord) (h : x.Range = some y) :
    y.evalRange = true ∨ y.err ≠ none := by
  unfold XRecord.Range at h
  split_ifs at h with h1
  · cases h
    simpa using h1
  all_goals
    split at h
    · cases h
    · split_ifs at h
      · cases h
        simp_all
      all_goals
        split at h
        · cases h
        · split_ifs at h <;> cases h <;> simp_all

theorem Median_sorted_flag (x y : XRecord) (h : x.Median true = some y) :
    y.evalSortedMedian = true ∨ y.err ≠ none := by
  unfold XRecord.Median at h
  split_ifs at h with h1
  · cases h
    simpa using h1
  all_goals
    split at h
    all_goals
      cases h <;> simp_all

theorem Median_unsorted_flag (x y : XRecord) (h : x.Median false = some y) :
    y.evalMedian = true ∨ y.err ≠ none := by
  unfold XRecord.Median at h
  split_ifs at h with h1
  · cases h
    simpa using h1
  all_goals
    split at h
    all_goals
      cases h <;> simp_all

/-! ## Idempotence of the single operations -/

/-- `Min()` sets no flag of its own, so a second call stores the same value
again. -/
theorem Min_idem (x y : XRecord) (h : x.Min = some y) : y.Min = some y := by
  unfold XRecord.Min at h
  split_ifs at h with h1
  · cases h
    unfold XRecord.Min
    rw [if_pos h1]
  · split at h
    · cases h
    · rename_i v hv
      cases h
      unfold XRecord.Min
      simp only [h1, hv]
      simp

/-! ## RunAll as a chain of calls -/

/-- On an error-free series `RunAll()` is the chain of its ten calls. -/
theorem RunAll_eq_some_iff (sqrt : ℚ → ℚ) (x y : XRecord) (he : x.err = none) :
    x.RunAll sqrt = some y ↔
      ∃ x1 x2 x3 x4 x5,
        (((x.Total).StandardDeviation sqrt).Variance).Range = some x1 ∧
        x1.MaxWithIndices = some x2 ∧ x2.MinWithIndices = some x3 ∧
        x3.Median true = some x4 ∧ x4.Median false = some x5 ∧
        (x5.Mean).Modes = y := by
  unfold XRecord.RunAll
  simp only [XRecord.validate, he, ne_eq, not_true_eq_false, if_false, Bool.not_true,
    Bool.false_eq_true, Option.map_eq_some', Option.bind_eq_some]
  constructor
  · rintro ⟨x5, ⟨x4, ⟨x3, ⟨x2, ⟨x1, h1, h2⟩, h3⟩, h4⟩, h5⟩, h6⟩
    exact ⟨x1, x2, x3, x4, x5, h1, h2, h3, h4, h5, h6⟩
  · rintro ⟨x1, x2, x3, x4, x5, h1, h2, h3, h4, h5, h6⟩
    exact ⟨x5, ⟨x4, ⟨x3, ⟨x2, ⟨x1, h1, h2⟩, h3⟩, h4⟩, h5⟩, h6⟩

theorem RunAll_noop (sqrt : ℚ → ℚ) (x : XRecord) (h : x.err ≠ none) :
    x.RunAll sqrt = some x := by
  unfold XRecord.RunAll
  simp [XRecord.validate, h]

theorem RunAll_frame (sqrt : ℚ → ℚ) (x y : XRecord) (h : x.RunAll sqrt = some y) :
    Frame x y := by
  by_cases he : x.err = none
  · obtain ⟨x1, x2, x3, x4, x5, h1, h2, h3, h4, h5, rfl⟩ :=
      (RunAll_eq_some_iff sqrt x y he).mp h
    have f0 : Frame x (((x.Total).StandardDeviation sqrt).Variance) :=
      ((Total_frame x).trans (StandardDeviation_frame sqrt _)).trans (Variance_frame _)
    exact (((((f0.trans (Range_frame _ _ h1)).trans (MaxWithIndices_frame _ _ h2)).trans
      (MinWithIndices_frame _ _ h3)).trans (Median_frame _ _ _ h4)).trans
      (Median_frame _ _ _ h5)).trans ((Mean_frame _).trans (Modes_frame _))
  · rw [RunAll_noop sqrt x he] at h
    cases h
    exact Frame.refl x

/-- The frame of every operation. -/
theorem apply_frame (sqrt : ℚ → ℚ) (op : Op) (x y : XRecord)
    (h : x.apply sqrt op = some y) : Frame x y := by
  cases op <;> simp only [XRecord.apply] at h
  · cases h; exact Total_frame x
  · cases h; exact Mean_frame x
  · cases h; exact Variance_frame x
  · cases h; exact StandardDeviation_frame sqrt x
  · exact Max_frame x y h
  · exact MaxWithIndices_frame x y h
  · exact Min_frame x y h
  · exact MinWithIndices_frame x y h
  · exact Range_frame x y h
  · cases h; exact Modes_frame x
  · exact Median_frame x y true h
  · exact Median_frame x y false h
  · exact RunAll_frame sqrt x y h

/-- A set error makes every operation return the series as it is. -/
theorem apply_noop_of_err (sqrt : ℚ → ℚ) (op : Op) (x : XRecord) (h : x.err ≠ none) :
    x.apply sqrt op = some x := by
  cases op <;> simp only [XRecord.apply]
  · rw [Total_noop x (Or.inr h)]
  · rw [Mean_noop x (Or.inr h)]
  · rw [Variance_noop x (Or.inr h)]
  · rw [StandardDeviation_noop sqrt x (Or.inr h)]
  · exact Max_noop x (Or.inr h)
  · exact MaxWithIndices_noop x (Or.inr h)
  · exact Min_noop x (Or.inr h)
  · exact MinWithIndices_noop x (Or.inr h)
  · exact Range_noop x (Or.inr h)
  · rw [Modes_noop x (Or.inr h)]
  · exact Median_sorted_noop x (Or.inr h)
  · exact Median_unsorted_noop x (Or.inr h)
  · exact RunAll_noop sqrt x h

/-- After `RunAll()` on an error-free series the flag of every operation it
calls is set and the series is still error-free. -/
theorem RunAll_flags (sqrt : ℚ → ℚ) (x y : XRecord) (he : x.err = none)
    (h : x.RunAll sqrt = some y) :
    y.err = none ∧ y.evalTotal = true ∧ y.evalStandardDeviation = true ∧
    y.evalVariance = true ∧ y.evalRange = true ∧ y.evalMaxWithIndices = true ∧
    y.evalMinWithIndices = true ∧ y.evalSortedMedian = true ∧ y.evalMedian = true ∧
    y.evalMean = true ∧ y.evalModes = true := by
  obtain ⟨x1, x2, x3, x4, x5, h1, h2, h3, h4, h5, rfl⟩ :=
    (RunAll_eq_some_iff sqrt x _ he).mp h
  have fa := Total_frame x
  have fb := StandardDeviation_frame sqrt x.Total
  have fc := Variance_frame (x.Total.StandardDeviation sqrt)
  have f1 := Range_frame _ _ h1
  have f2 := MaxWithIndices_frame _ _ h2
  have f3 := MinWithIndices_frame _ _ h3
  have f4 := Median_frame _ _ _ h4
  have f5 := Median_frame _ _ _ h5
  have f6 := Mean_frame x5
  have f7 := Modes_frame x5.Mean
  have ea : x.Total.err = none := fa.err_eq.trans he
  have eb := fb.err_eq.trans ea
  have ec := fc.err_eq.trans eb
  have e1 := f1.err_eq.trans ec
  have e2 := f2.err_eq.trans e1
  have e3 := f3.err_eq.trans e2
  have e4 := f4.err_eq.trans e3
  have e5 := f5.err_eq.trans e4
  have e6 := f6.err_eq.trans e5
  have e7 := f7.err_eq.trans e6
  have ga : x.Total.evalTotal = true := (Total_flag x).resolve_right (fun hn => hn ea)
  have gb := (StandardDeviation_flag sqrt x.Total).resolve_right (fun hn => hn eb)
  have gc := (Variance_flag (x.Total.StandardDeviation sqrt)).resolve_right (fun hn => hn ec)
  have g1 := (Range_flag _ _ h1).resolve_right (fun hn => hn e1)
  have g2 := (MaxWithIndices_flag _ _ h2).resolve_right (fun hn => hn e2)
  have g3 := (MinWithIndices_flag _ _ h3).resolve_right (fun hn => hn e3)
  have g4 := (Median_sorted_flag _ _ h4).resolve_right (fun hn => hn e4)
  have g5 := (Median_unsorted_flag _ _ h5).resolve_right (fun hn => hn e5)
  have g6 := (Mean_flag x5).resolve_right (fun hn => hn e6)
  have g7 := (Modes_flag x5.Mean).resolve_right (fun hn => hn e7)
  have t7 := f7
  have t6 := f6.trans t7
  have t5 := f5.trans t6
  have t4 := f4.trans t5
  have t3 := f3.trans t4
  have t2 := f2.trans t3
  have t1 := f1.trans t2
  have tc := fc.trans t1
  have tb := fb.trans tc
  refine ⟨e7, tb.2.2.2.2.2.2.1 ga, tc.2.2.2.2.2.2.2.2.2.2.2.1 gb,
    t1.2.2.2.2.2.2.2.2.2.2.1 gc, t2.2.2.2.2.2.2.2.2.2.1 g1,
    t3.2.2.2.2.2.2.2.2.2.2.2.2.2.2.1 g2, t4.2.2.2.2.2.2.2.2.2.2.2.2.2.2.2.2.1 g3,
    t5.2.2.2.2.2.2.2.2.2.2.2.2.1 g4, t6.2.2.2.2.2.2.2.2.1 g5, t7.2.2.2.2.2.2.2.1 g6, g7⟩

/-- With the flag of every operation it calls set, `RunAll()` changes nothing. -/
theorem RunAll_noop_of_flags (sqrt : ℚ → ℚ) (y : XRecord)
    (h : y.err = none ∧ y.evalTotal = true ∧ y.evalStandardDeviation = true ∧
      y.evalVariance = true ∧ y.evalRange = true ∧ y.evalMaxWithIndices = true ∧
      y.evalMinWithIndices = true ∧ y.evalSortedMedian = true ∧ y.evalMedian = true ∧
      y.evalMean = true ∧ y.evalModes = true) :
    y.RunAll sqrt = some y := by
  obtain ⟨he, g1, g2, g3, g4, g5, g6, g7, g8, g9, g10⟩ := h
  refine (RunAll_eq_some_iff sqrt y y he).mpr ⟨y, y, y, y, y, ?_, ?_, ?_, ?_, ?_, ?_⟩
  · rw [Total_noop y (Or.inl g1), StandardDeviation_noop sqrt y (Or.inl g2),
      Variance_noop y (Or.inl g3)]
    exact Range_noop y (Or.inl g4)
  · exact MaxWithIndices_noop y (Or.inl g5)
  · exact MinWithIndices_noop y (Or.inl g6)
  · exact Median_sorted_noop y (Or.inl g7)
  · exact Median_unsorted_noop y (Or.inl g8)
  · rw [Mean_noop y (Or.inl g9), Modes_noop y (Or.inl g10)]

theorem RunAll_idem (sqrt : ℚ → ℚ) (x y : XRecord) (h : x.RunAll sqrt = some y) :
    y.RunAll sqrt = some y := by
  by_cases he : x.err = none
  · exact RunAll_noop_of_flags sqrt y (RunAll_flags sqrt x y he h)
  · rw [RunAll_noop sqrt x he] at h
    cases h
    exact RunAll_noop sqrt x he

/-- A second call of an operation changes nothing. -/
theorem apply_idem (sqrt : ℚ → ℚ) (op : Op) (x y : XRecord)
    (h : x.apply sqrt op = some y) : y.apply sqrt op = some y := by
  cases op <;> simp only [XRecord.apply] at h ⊢
  · cases h; rw [Total_noop _ (Total_flag x)]
  · cases h; rw [Mean_noop _ (Mean_flag x)]
  · cases h; rw [Variance_noop _ (Variance_flag x)]
  · cases h; rw [StandardDeviation_noop sqrt _ (StandardDeviation_flag sqrt x)]
  · exact Max_noop y (Max_flag x y h)
  · exact MaxWithIndices_noop y (MaxWithIndices_flag x y h)
  · exact Min_idem x y h
  · exact MinWithIndices_noop y (MinWithIndices_flag x y h)
  · exact Range_noop y (Range_flag x y h)
  · cases h; rw [Modes_noop _ (Modes_flag x)]
  · exact Median_sorted_noop y (Median_sorted_flag x y h)
  · exact Median_unsorted_noop y (Median_unsorted_flag x y h)
  · exact RunAll_idem sqrt x y h

/-! ## Operations on a series built by New always return -/

theorem WellFormed.of_frame {x y : XRecord} (hw : WellFormed x) (hf : Frame x y) :
    WellFormed y := by
  obtain ⟨w1, w2, w3, w4, w5⟩ := hw
  obtain ⟨a1, a2, a3, -, a5, a6, -⟩ := hf
  refine ⟨?_, ?_, ?_, ?_, ?_⟩
  · rw [a1]; exact w1
  · rw [a3, a1]; exact w2
  · rw [a2, a1]; exact w3
  · rw [a5, a3]; exact w4
  · rw [a6]; exact w5

theorem New_wellFormed (data : List ℚ) (x : XRecord) (h : New data = some x) :
    WellFormed x := by
  have hne : data ≠ [] := by
    rintro rfl
    simp [New] at h
  rw [New_eq_some data hne] at h
  cases h
  exact ⟨hne, rfl, sortFloat64s_length data, rfl, rfl⟩

theorem WellFormed.length_pos {x : XRecord} (hw : WellFormed x) : 0 < x.data.length :=
  List.length_pos.mpr hw.1

theorem Max_total (x : XRecord) (hw : WellFormed x) : ∃ y, x.Max = some y := by
  have hpos := hw.length_pos
  obtain ⟨-, w2, w3, -, -⟩ := hw
  obtain ⟨v, hv, -⟩ := idx_eq_some x.sortedData (x.length - 1) (by omega) (by omega)
  unfold XRecord.Max
  rw [hv]
  split_ifs <;> exact ⟨_, rfl⟩

theorem Min_total (x : XRecord) (hw : WellFormed x) : ∃ y, x.Min = some y := by
  have hpos := hw.length_pos
  obtain ⟨-, w2, w3, -, -⟩ := hw
  obtain ⟨v, hv, -⟩ := idx_eq_some x.sortedData 0 (by omega) (by omega)
  unfold XRecord.Min
  rw [hv]
  split_ifs <;> exact ⟨_, rfl⟩

theorem MaxWithIndices_total (x : XRecord) (hw : WellFormed x) :
    ∃ y, x.MaxWithIndices = some y := by
  obtain ⟨x1, h1⟩ : ∃ x1, (if (!x.evalMax) = true then x.Max else some x) = some x1 := by
    split_ifs
    · exact Max_total x hw
    · exact ⟨x, rfl⟩
  unfold XRecord.MaxWithIndices
  rw [h1]
  dsimp only
  split_ifs <;> exact ⟨_, rfl⟩

theorem MinWithIndices_total (x : XRecord) (hw : WellFormed x) :
    ∃ y, x.MinWithIndices = some y := by
  obtain ⟨x1, h1⟩ : ∃ x1, (if (!x.evalMin) = true then x.Min else some x) = some x1 := by
    split_ifs
    · exact Min_total x hw
    · exact ⟨x, rfl⟩
  unfold XRecord.MinWithIndices
  rw [h1]
  dsimp only
  split_ifs <;> exact ⟨_, rfl⟩

theorem Range_total (x : XRecord) (hw : WellFormed x) : ∃ y, x.Range = some y := by
  obtain ⟨x1, h1⟩ : ∃ x1, (if (!x.evalMax) = true then x.Max else some x) = some x1 := by
    split_ifs
    · exact Max_total x hw
    · exact ⟨x, rfl⟩
  have hw1 : WellFormed x1 := by
    split_ifs at h1
    · exact hw.of_frame (Max_frame x x1 h1)
    · cases h1
      exact hw
  obtain ⟨x2, h2⟩ : ∃ x2, (if (!x1.evalMin) = true then x1.Min else some x1) = some x2 := by
    split_ifs
    · exact Min_total x1 hw1
    · exact ⟨x1, rfl⟩
  unfold XRecord.Range
  rw [h1]
  dsimp only
  rw [h2]
  dsimp only
  split_ifs <;> exact ⟨_, rfl⟩

theorem Median_total (x : XRecord) (sorted : Bool) (hw : WellFormed x) :
    ∃ y, x.Median sorted = some y := by
  have hpos := hw.length_pos
  obtain ⟨-, w2, w3, w4, -⟩ := hw
  unfold XRecord.Median
  by_cases h1 : x.length = 1
  · obtain ⟨v, hv, -⟩ := idx_eq_some x.data 0 (by omega) (by omega)
    rw [hv]
    simp only [h1, if_true]
    split_ifs <;> exact ⟨_, rfl⟩
  · obtain ⟨a, ha, -⟩ := idx_eq_some x.data x.middleIndex (by omega) (by omega)
    obtain ⟨b, hb, -⟩ := idx_eq_some x.data (x.middleIndex - 1) (by omega) (by omega)
    obtain ⟨c, hc, -⟩ := idx_eq_some x.sortedData x.middleIndex (by omega) (by omega)
    obtain ⟨d, hd, -⟩ := idx_eq_some x.sortedData (x.middleIndex - 1) (by omega) (by omega)
    rw [ha, hb, hc, hd]
    simp only [h1, if_false]
    split_ifs <;> exact ⟨_, rfl⟩

theorem RunAll_total (sqrt : ℚ → ℚ) (x : XRecord) (hw : WellFormed x) :
    ∃ y, x.RunAll sqrt = some y := by
  have w0 : WellFormed (((x.Total).StandardDeviation sqrt).Variance) :=
    hw.of_frame (((Total_frame x).trans (StandardDeviation_frame sqrt _)).trans
      (Variance_frame _))
  obtain ⟨x1, h1⟩ := Range_total _ w0
  have w1 := w0.of_frame (Range_frame _ _ h1)
  obtain ⟨x2, h2⟩ := MaxWithIndices_total _ w1
  have w2 := w1.of_frame (MaxWithIndices_frame _ _ h2)
  obtain ⟨x3, h3⟩ := MinWithIndices_total _ w2
  have w3 := w2.of_frame (MinWithIndices_frame _ _ h3)
  obtain ⟨x4, h4⟩ := Median_total _ true w3
  have w4 := w3.of_frame (Median_frame _ _ _ h4)
  obtain ⟨x5, h5⟩ := Median_total _ false w4
  exact ⟨_, (RunAll_eq_some_iff sqrt x _ hw.2.2.2.2).mpr
    ⟨x1, x2, x3, x4, x5, h1, h2, h3, h4, h5, rfl⟩⟩

/-- No operation panics on a well-formed series. -/
theorem apply_total (sqrt : ℚ → ℚ) (op : Op) (x : XRecord) (hw : WellFormed x) :
    ∃ y, x.apply sqrt op = some y := by
  cases op <;> simp only [XRecord.apply]
  · exact ⟨_, rfl⟩
  · exact ⟨_, rfl⟩
  · exact ⟨_, rfl⟩
  · exact ⟨_, rfl⟩
  · exact Max_total x hw
  · exact MaxWithIndices_total x hw
  · exact Min_total x hw
  · exact MinWithIndices_total x hw
  · exact Range_total x hw
  · exact ⟨_, rfl⟩
  · exact Median_total x true hw
  · exact Median_total x false hw
  · exact RunAll_total sqrt x hw

/-- Every state reached by a sequence of operations is well-formed and frames
the state it started from. -/
theorem runOps_frame (sqrt : ℚ → ℚ) (ops : List Op) :
    ∀ x s, runOps sqrt ops x = some s → Frame x s := by
  induction ops with
  | nil =>
    intro x s h
    simp only [runOps] at h
    cases h
    exact Frame.refl x
  | cons op ops ih =>
    intro x s h
    simp only [runOps, Option.bind_eq_some] at h
    obtain ⟨y, hy, hs⟩ := h
    exact (apply_frame sqrt op x y hy).trans (ih y s hs)

/-- From a well-formed series every sequence of operations runs to its end. -/
theorem runOps_total (sqrt : ℚ → ℚ) (ops : List Op) :
    ∀ x, WellFormed x → ∃ s, runOps sqrt ops x = some s := by
  induction ops with
  | nil =>
    intro x _
    exact ⟨x, rfl⟩
  | cons op ops ih =>
    intro x hw
    obtain ⟨y, hy⟩ := apply_total sqrt op x hw
    obtain ⟨s, hs⟩ := ih y (hw.of_frame (apply_frame sqrt op x y hy))
    exact ⟨s, by simp only [runOps, hy, Option.some_bind, hs]⟩

/-- Every state reachable from `New(data)` is well-formed. -/
theorem reachable_wellFormed (sqrt : ℚ → ℚ) (data : List ℚ) (ops : List Op) (s : XRecord)
    (h : (New data).bind (runOps sqrt ops) = some s) : WellFormed s := by
  simp only [Option.bind_eq_some] at h
  obtain ⟨x, hx, hs⟩ := h
  exact (New_wellFormed data x hx).of_frame (runOps_frame sqrt ops x s hs)

/-! ## C13: idempotence -/

/-- C13: in every state `s` reachable from `New(data)` by a finite sequence of
statistic operations, every operation returns, and applying it a second time
returns exactly the state the first call gave: the same register values and the
same memoization flags. -/
theorem C13_operations_idempotent (sqrt : ℚ → ℚ) (data : List ℚ) (ops : List Op)
    (s : XRecord) (op : Op) (hs : (New data).bind (runOps sqrt ops) = some s) :
    ∃ t, s.apply sqrt op = some t ∧ t.apply sqrt op = some t := by
  obtain ⟨t, ht⟩ := apply_total sqrt op s (reachable_wellFormed sqrt data ops s hs)
  exact ⟨t, ht, apply_idem sqrt op s t ht⟩

/-- C13 at `New([5,1])` after `Min()` and `Total()`, for `Variance()`. -/
theorem C13_operations_idempotent_witness :
    ∃ s t, (New [5, 1]).bind (runOps (fun q => q) [Op.Min, Op.Total]) = some s ∧
      s.apply (fun q => q) Op.Variance = some t ∧
      t.apply (fun q => q) Op.Variance = some t := by
  obtain ⟨x, hx⟩ : ∃ x, New [5, 1] = some x := ⟨_, New_eq_some _ (by simp)⟩
  obtain ⟨s, hs⟩ := runOps_total (fun q => q) [Op.Min, Op.Total] x (New_wellFormed _ x hx)
  have hs' : (New [5, 1]).bind (runOps (fun q => q) [Op.Min, Op.Total]) = some s := by
    rw [hx, Option.some_bind, hs]
  obtain ⟨t, h1, h2⟩ :=
    C13_operations_idempotent (fun q => q) [5, 1] [Op.Min, Op.Total] s Op.Variance hs'
  exact ⟨s, t, hs', h1, h2⟩

/-! ## C14: the error slot -/

/-- C14: on a series whose error slot is set, every operation returns the series
with every field unchanged, and `Failed()` is true. -/
theorem C14_error_makes_every_operation_a_noop (sqrt : ℚ → ℚ) (x : XRecord) (op : Op)
    (h : x.err ≠ none) : x.apply sqrt op = some x ∧ x.Failed = true := by
  refine ⟨apply_noop_of_err sqrt op x h, ?_⟩
  simp [XRecord.Failed, h]

/-- C14 at a series with data `[1]` and a set error, for `RunAll()`. -/
theorem C14_error_makes_every_operation_a_noop_witness :
    XRecord.apply (fun q => q) Op.RunAll
        { data := [1], length := 1, err := some "failed" }
      = some { data := [1], length := 1, err := some "failed" } ∧
    XRecord.Failed { data := [1], length := 1, err := some "failed" } = true :=
  C14_error_makes_every_operation_a_noop (fun q => q)
    { data := [1], length := 1, err := some "failed" } Op.RunAll (by simp)

/-! ## C15: what the operations leave unchanged -/

/-- C15: every operation returns on a series of the shape `New` builds, and an
operation that returns leaves `data`, `sortedData`, `length`, `even`,
`middleIndex` and the error slot unchanged, and every memoization flag that was
set before the call is set after it. -/
theorem C15_operations_frame (sqrt : ℚ → ℚ) (x : XRecord) (op : Op) :
    (WellFormed x → ∃ y, x.apply sqrt op = some y) ∧
    ∀ y, x.apply sqrt op = some y →
      y.data = x.data ∧ y.sortedData = x.sortedData ∧ y.length = x.length ∧
      y.even = x.even ∧ y.middleIndex = x.middleIndex ∧ y.err = x.err ∧
      (x.evalTotal = true → y.evalTotal = true) ∧
      (x.evalMean = true → y.evalMean = true) ∧
      (x.evalMedian = true → y.evalMedian = true) ∧
      (x.evalRange = true → y.evalRange = true) ∧
      (x.evalVariance = true → y.evalVariance = true) ∧
      (x.evalStandardDeviation = true → y.evalStandardDeviation = true) ∧
      (x.evalSortedMedian = true → y.evalSortedMedian = true) ∧
      (x.evalMax = true → y.evalMax = true) ∧
      (x.evalMaxWithIndices = true → y.evalMaxWithIndices = true) ∧
      (x.evalMin = true → y.evalMin = true) ∧
      (x.evalMinWithIndices = true → y.evalMinWithIndices = true) ∧
      (x.evalModes = true → y.evalModes = true) :=
  ⟨apply_total sqrt op x, fun y h => apply_frame sqrt op x y h⟩

/-- C15 at `New([2,1])` for `RunAll()`: the call returns, the data are still
`[2,1]` and the series is still error-free. -/
theorem C15_operations_frame_witness :
    ∃ x y, New [2, 1] = some x ∧ x.apply (fun q => q) Op.RunAll = some y ∧
      y.data = [2, 1] ∧ y.length = 2 ∧ y.err = none := by
  have hx := New_eq_some [2, 1] (by simp)
  obtain ⟨htot, hframe⟩ := C15_operations_frame (fun q => q) _ Op.RunAll
  obtain ⟨y, hy⟩ := htot (New_wellFormed _ _ hx)
  obtain ⟨h1, -, h3, -, -, h6, -⟩ := hframe y hy
  exact ⟨_, y, hx, hy, h1, h3, h6⟩

/-! ## The index scan -/

theorem idx_nil (k : Int) : idx [] k = none := by
  unfold idx
  split_ifs <;> simp

theorem idx_cons (v : ℚ) (vs : List ℚ) (k : Int) :
    idx (v :: vs) k = if k = 0 then some v else idx vs (k - 1) := by
  unfold idx
  by_cases h0 : k = 0
  · subst h0
    simp
  · rw [if_neg h0]
    by_cases hneg : k < 0
    · have h1 : k - 1 < 0 := by omega
      rw [if_pos hneg, if_pos h1]
    · have h1 : ¬ k - 1 < 0 := by omega
      rw [if_neg hneg, if_neg h1]
      obtain ⟨n, hn⟩ : ∃ n : ℕ, k.toNat = n + 1 := ⟨k.toNat - 1, by omega⟩
      have h2 : (k - 1).toNat = n := by omega
      rw [hn, h2, List.getElem?_cons_succ]

theorem idx_bounds (s : List ℚ) (k : Int) (v : ℚ) (h : idx s k = some v) :
    0 ≤ k ∧ k < s.length := by
  obtain ⟨h0, h1⟩ := (idx_some_iff s k v).mp h
  obtain ⟨hlt, -⟩ := List.getElem?_eq_some_iff.mp h1
  omega

/-- The scan collects exactly the positions that hold `m`. -/
theorem mem_scanIndices (m : ℚ) (l : List ℚ) : ∀ (i : Int) (out : List Int) (j : Int),
    j ∈ scanIndices m l i out ↔ j ∈ out ∨ (i ≤ j ∧ idx l (j - i) = some m) := by
  induction l with
  | nil =>
    intro i out j
    simp [scanIndices, idx_nil]
  | cons v vs ih =>
    intro i out j
    rw [scanIndices, ih, idx_cons]
    have hsub : j - (i + 1) = j - i - 1 := by ring
    rw [hsub]
    by_cases hji : j = i
    · subst hji
      by_cases hv : v = m
      · simp [hv]
      · simp [hv]
    · have h0 : ¬ j - i = 0 := by omega
      rw [if_neg h0]
      have hle : i + 1 ≤ j ↔ i ≤ j := by omega
      by_cases hv : v = m
      · simp [hv, hji, hle]
      · simp [hv, hle]

/-- The scan lists the positions in strictly ascending order. -/
theorem sorted_scanIndices (m : ℚ) (l : List ℚ) : ∀ (i : Int) (out : List Int),
    out.Sorted (· < ·) → (∀ a ∈ out, a < i) → (scanIndices m l i out).Sorted (· < ·) := by
  induction l with
  | nil =>
    intro i out hs _
    simpa [scanIndices] using hs
  | cons v vs ih =>
    intro i out hs hlt
    rw [scanIndices]
    apply ih
    · split_ifs
      · unfold List.Sorted
        rw [List.pairwise_append]
        refine ⟨hs, List.pairwise_singleton _ _, ?_⟩
        intro a ha b hb
        rw [List.mem_singleton] at hb
        subst hb
        exact hlt a ha
      · exact hs
    · intro a ha
      split_ifs at ha
      · rw [List.mem_append, List.mem_singleton] at ha
        rcases ha with ha | ha
        · have := hlt a ha
          omega
        · omega
      · have := hlt a ha
        omega

/-- On a one-element slice the scan for its element gives `[0]`, the list the
shortcut stores. -/
theorem scanIndices_single (m : ℚ) (data : List ℚ) (h1 : (data.length : Int) = 1)
    (hm : m ∈ data) : scanIndices m data 0 [] = [0] := by
  match data, h1, hm with
  | [w], _, hm =>
    have hw : w = m := by simpa [eq_comm] using hm
    simp [scanIndices, hw]
  | [], h1, _ => simp at h1
  | _ :: _ :: _, h1, _ =>
    simp only [List.length_cons, Nat.cast_add, Nat.cast_one] at h1
    omega

/-- The index list stored for an extreme value `m` of the data: the scan, in
strictly ascending order, holding exactly the positions of `m`, and not empty. -/
theorem indices_of_member (m : ℚ) (data : List ℚ) (hm : m ∈ data) (l : List Int)
    (hl : l = if (data.length : Int) = 1 then [0] else scanIndices m data 0 []) :
    l = scanIndices m data 0 [] ∧ l.Sorted (· < ·) ∧
    (∀ j, j ∈ l ↔ 0 ≤ j ∧ j < (data.length : Int) ∧ idx data j = some m) ∧ l ≠ [] := by
  have hscan : l = scanIndices m data 0 [] := by
    rw [hl]
    split_ifs with h1
    · exact (scanIndices_single m data h1 hm).symm
    · rfl
  have hmem : ∀ j, j ∈ l ↔ 0 ≤ j ∧ j < (data.length : Int) ∧ idx data j = some m := by
    intro j
    rw [hscan, mem_scanIndices]
    simp only [List.not_mem_nil, false_or, sub_zero]
    constructor
    · rintro ⟨h0, hj⟩
      exact ⟨h0, (idx_bounds data j m hj).2, hj⟩
    · rintro ⟨h0, -, hj⟩
      exact ⟨h0, hj⟩
  refine ⟨hscan, ?_, hmem, ?_⟩
  · rw [hscan]
    exact sorted_scanIndices m data 0 [] List.sorted_nil (by simp)
  · obtain ⟨k, hk⟩ := List.mem_iff_getElem?.mp hm
    have hk' : idx data (k : Int) = some m :=
      (idx_some_iff _ _ _).mpr ⟨by omega, by simpa using hk⟩
    have hin : (k : Int) ∈ l :=
      (hmem k).mpr ⟨by omega, (idx_bounds data k m hk').2, hk'⟩
    exact List.ne_nil_of_mem hin

/-! ## C18: the index lists -/

/-- C18: for a non-empty slice, after `RunAll()` on the fresh series
`Register.MaxIndices` is the strictly ascending list of exactly the positions
that hold the maximum of the data and `Register.MinIndices` the strictly
ascending list of exactly the positions that hold the minimum; both are
non-empty, and both equal the list the scan gives, also where the one-element
shortcut stored `[0]`. -/
theorem C18_indices_of_extremes (sqrt : ℚ → ℚ) (data : List ℚ) (hne : data ≠ []) :
    ∃ x, New data = some x ∧ ∃ y, x.RunAll sqrt = some y ∧
      (y.Register.MaxValue ∈ data ∧ ∀ v ∈ data, v ≤ y.Register.MaxValue) ∧
      (y.Register.MinValue ∈ data ∧ ∀ v ∈ data, y.Register.MinValue ≤ v) ∧
      y.Register.MaxIndices.Sorted (· < ·) ∧
      (∀ j, j ∈ y.Register.MaxIndices ↔
        0 ≤ j ∧ j < (data.length : Int) ∧ idx data j = some y.Register.MaxValue) ∧
      y.Register.MaxIndices ≠ [] ∧
      y.Register.MinIndices.Sorted (· < ·) ∧
      (∀ j, j ∈ y.Register.MinIndices ↔
        0 ≤ j ∧ j < (data.length : Int) ∧ idx data j = some y.Register.MinValue) ∧
      y.Register.MinIndices ≠ [] ∧
      y.Register.MaxIndices = scanIndices y.Register.MaxValue data 0 [] ∧
      y.Register.MinIndices = scanIndices y.Register.MinValue data 0 [] := by
  obtain ⟨x, hx, M, m, hM, hm, y, hy, hmax, hmin, -, hmaxi, hmini, -⟩ :=
    RunAll_fresh sqrt data hne
  have hMax := sortFloat64s_last_is_max data M hM
  have hMin := sortFloat64s_first_is_min data m hm
  obtain ⟨a1, a2, a3, a4⟩ := indices_of_member M data hMax.1 _ hmaxi
  obtain ⟨b1, b2, b3, b4⟩ := indices_of_member m data hMin.1 _ hmini
  refine ⟨x, hx, y, hy, ?_, ?_, a2, ?_, a4, b2, ?_, b4, ?_, ?_⟩
  · rw [hmax]; exact hMax
  · rw [hmin]; exact hMin
  · rw [hmax]; exact a3
  · rw [hmin]; exact b3
  · rw [hmax]; exact a1
  · rw [hmin]; exact b1

/-- C18 at `[5,7,7,1]`: the maximum sits at positions 1 and 2, the minimum at
position 3. -/
theorem C18_indices_of_extremes_witness :
    ∃ x, New [5, 7, 7, 1] = some x ∧ ∃ y, x.RunAll (fun q => q) = some y ∧
      y.Register.MaxIndices = [1, 2] ∧ y.Register.MinIndices = [3] := by
  obtain ⟨x, hx, y, hy, ⟨h1, h2⟩, ⟨h3, h4⟩, -, -, -, -, -, -, hmaxi, hmini⟩ :=
    C18_indices_of_extremes (fun q => q) [5, 7, 7, 1] (by simp)
  have hmax : y.Register.MaxValue = 7 := by
    have h7 := h2 7 (by simp)
    simp only [List.mem_cons, List.mem_singleton, List.not_mem_nil, or_false] at h1
    rcases h1 with h | h | h | h <;> rw [h] at h7 ⊢ <;> norm_num at h7 ⊢
  have hmin : y.Register.MinValue = 1 := by
    have h7 := h4 1 (by simp)
    simp only [List.mem_cons, List.mem_singleton, List.not_mem_nil, or_false] at h3
    rcases h3 with h | h | h | h <;> rw [h] at h7 ⊢ <;> norm_num at h7 ⊢
  refine ⟨x, hx, y, hy, ?_, ?_⟩
  · rw [hmaxi, hmax]
    norm_num [scanIndices]
  · rw [hmini, hmin]
    norm_num [scanIndices]

/-! ## The medians after RunAll -/

/-- What `RunAll()` leaves in the two median fields of a fresh series: the sole
element for length 1, otherwise the average of the elements at `middleIndex` and
`middleIndex - 1`. -/
theorem RunAll_fresh_medians (sqrt : ℚ → ℚ) (data : List ℚ) (hne : data ≠ []) :
    ∃ x, New data = some x ∧ ∃ a b c d,
      idx data ((data.length : Int) / 2) = some a ∧
      idx data (if (data.length : Int) = 1 then 0 else (data.length : Int) / 2 - 1) = some b ∧
      idx (sortFloat64s data) ((data.length : Int) / 2) = some c ∧
      idx (sortFloat64s data)
        (if (data.length : Int) = 1 then 0 else (data.length : Int) / 2 - 1) = some d ∧
      ∃ y, x.RunAll sqrt = some y ∧
      y.Register.Median = (if (data.length : Int) = 1 then a else (a + b) / 2) ∧
      y.Register.SortedMedian = (if (data.length : Int) = 1 then a else (c + d) / 2) := by
  have hpos : 0 < data.length := List.length_pos.mpr hne
  have hs := sortFloat64s_length data
  obtain ⟨M, hM, -⟩ :=
    idx_eq_some (sortFloat64s data) ((data.length : Int) - 1) (by omega) (by omega)
  obtain ⟨m, hm, -⟩ := idx_eq_some (sortFloat64s data) 0 (by omega) (by omega)
  by_cases h1 : (data.length : Int) = 1
  · obtain ⟨v, hv, -⟩ := idx_eq_some data 0 (by omega) (by omega)
    have hM' : idx (sortFloat64s data) 0 = some M := by
      have h2 := hM
      rw [h1, sub_self] at h2
      exact h2
    refine ⟨_, New_eq_some data hne, v, v, m, m, ?_, ?_, ?_, ?_, ?_⟩
    · rw [h1]; simpa using hv
    · rw [if_pos h1]; exact hv
    · rw [h1]; simpa using hm
    · rw [if_pos h1]; exact hm
    · simp [XRecord.RunAll, XRecord.validate, XRecord.Total, XRecord.StandardDeviation,
        XRecord.Variance, XRecord.Mean, XRecord.Range, XRecord.Max, XRecord.Min,
        XRecord.MaxWithIndices, XRecord.MinWithIndices, XRecord.Median, hM', hm, h1, hv,
        Modes_Median, Modes_SortedMedian]
  · obtain ⟨a, ha, -⟩ := idx_eq_some data ((data.length : Int) / 2) (by omega) (by omega)
    obtain ⟨b, hb, -⟩ := idx_eq_some data ((data.length : Int) / 2 - 1) (by omega) (by omega)
    obtain ⟨c, hc, -⟩ :=
      idx_eq_some (sortFloat64s data) ((data.length : Int) / 2) (by omega) (by omega)
    obtain ⟨d, hd, -⟩ :=
      idx_eq_some (sortFloat64s data) ((data.length : Int) / 2 - 1) (by omega) (by omega)
    refine ⟨_, New_eq_some data hne, a, b, c, d, ha, ?_, hc, ?_, ?_⟩
    · rw [if_neg h1]; exact hb
    · rw [if_neg h1]; exact hd
    · simp [XRecord.RunAll, XRecord.validate, XRecord.Total, XRecord.StandardDeviation,
        XRecord.Variance, XRecord.Mean, XRecord.Range, XRecord.Max, XRecord.Min,
        XRecord.MaxWithIndices, XRecord.MinWithIndices, XRecord.Median, hM, hm, h1,
        ha, hb, hc, hd, Modes_Median, Modes_SortedMedian]

/-! ## C19: consistency of the statistics -/

/-- The sum of a slice lies between its length times a lower bound and its
length times an upper bound of the elements. -/
theorem sum_bounds (data : List ℚ) (lo hi : ℚ) (hlo : ∀ v ∈ data, lo ≤ v)
    (hhi : ∀ v ∈ data, v ≤ hi) :
    (data.length : ℚ) * lo ≤ data.sum ∧ data.sum ≤ (data.length : ℚ) * hi := by
  induction data with
  | nil => simp
  | cons v vs ih =>
    obtain ⟨i1, i2⟩ := ih (fun w hw => hlo w (List.mem_cons_of_mem _ hw))
      (fun w hw => hhi w (List.mem_cons_of_mem _ hw))
    have h1 := hlo v (List.mem_cons_self _ _)
    have h2 := hhi v (List.mem_cons_self _ _)
    simp only [List.length_cons, Nat.cast_add, Nat.cast_one, List.sum_cons]
    constructor <;> nlinarith

/-- C19: for a non-empty slice, after `RunAll()` on the fresh series the mean
and the sorted median lie between `Register.MinValue` and `Register.MaxValue`,
and `Register.Variance` is not negative. -/
theorem C19_statistics_consistent (sqrt : ℚ → ℚ) (data : List ℚ) (hne : data ≠ []) :
    ∃ x, New data = some x ∧ ∃ y, x.RunAll sqrt = some y ∧
      y.Register.MinValue ≤ y.Register.Mean ∧ y.Register.Mean ≤ y.Register.MaxValue ∧
      y.Register.MinValue ≤ y.Register.SortedMedian ∧
      y.Register.SortedMedian ≤ y.Register.MaxValue ∧
      0 ≤ y.Register.Variance := by
  obtain ⟨x, hx, M, m, hM, hm, y, hy, hmax, hmin, -, -, -, -, hmean, hvar, -⟩ :=
    RunAll_fresh sqrt data hne
  obtain ⟨x', hx', a, b, c, d, ha, -, hc, hd, y', hy', -, hsm⟩ :=
    RunAll_fresh_medians sqrt data hne
  have hxx : x = x' := Option.some.inj (hx.symm.trans hx')
  subst hxx
  have hyy : y = y' := Option.some.inj (hy.symm.trans hy')
  subst hyy
  obtain ⟨-, hMle⟩ := sortFloat64s_last_is_max data M hM
  obtain ⟨-, hmle⟩ := sortFloat64s_first_is_min data m hm
  have hpos : (0 : ℚ) < (data.length : ℚ) := by
    have : 0 < data.length := List.length_pos.mpr hne
    exact_mod_cast this
  obtain ⟨s1, s2⟩ := sum_bounds data m M hmle hMle
  have inData : ∀ k v, idx (sortFloat64s data) k = some v → v ∈ data := fun k v h =>
    (sortFloat64s_perm data).mem_iff.mp (idx_mem _ _ _ h)
  refine ⟨x, hx, y, hy, ?_, ?_, ?_, ?_, ?_⟩
  · rw [hmin, hmean, le_div_iff₀ hpos]
    linarith
  · rw [hmax, hmean, div_le_iff₀ hpos]
    linarith
  · rw [hmin, hsm]
    split_ifs
    · exact hmle a (idx_mem _ _ _ ha)
    · have h1 := hmle c (inData _ _ hc)
      have h2 := hmle d (inData _ _ hd)
      linarith
  · rw [hmax, hsm]
    split_ifs
    · exact hMle a (idx_mem _ _ _ ha)
    · have h1 := hMle c (inData _ _ hc)
      have h2 := hMle d (inData _ _ hd)
      linarith
  · rw [hvar]
    apply div_nonneg _ hpos.le
    apply List.sum_nonneg
    intro w hw
    obtain ⟨v, -, rfl⟩ := List.mem_map.mp hw
    exact mul_self_nonneg _

/-- C19 at `[4,1,3,2]`: with minimum 1 and maximum 4 the mean is 5/2 and the
sorted median lies between them. -/
theorem C19_statistics_consistent_witness :
    ∃ x, New [4, 1, 3, 2] = some x ∧ ∃ y, x.RunAll (fun q => q) = some y ∧
      y.Register.MinValue ≤ y.Register.Mean ∧ y.Register.Mean ≤ y.Register.MaxValue ∧
      y.Register.MinValue ≤ y.Register.SortedMedian ∧
      y.Register.SortedMedian ≤ y.Register.MaxValue ∧
      0 ≤ y.Register.Variance :=
  C19_statistics_consistent (fun q => q) [4, 1, 3, 2] (by simp)

/-! ## C20: line wrapping -/

/-- The loop of `addNLines` appends to the builder the rest of the text with
breaks inserted. -/
theorem addNLinesLoop_spec (max : Int) (s : List Char) : ∀ (j : Int) (sb : List Char),
    ∃ t, addNLinesLoop max s j sb = sb ++ t ∧ BreaksInserted max j s t := by
  induction s with
  | nil =>
    intro j sb
    exact ⟨[], by simp [addNLinesLoop], BreaksInserted.nil j⟩
  | cons c rest ih =>
    intro j sb
    by_cases hb : (IsSpace c && decide (j > max)) = true
    · obtain ⟨t, ht, hrel⟩ := ih 3 ((sb ++ [Char.ofNat 10, ' ', ' ']) ++ [c])
      have hsp : IsSpace c = true := by
        simp only [Bool.and_eq_true, decide_eq_true_eq] at hb
        exact hb.1
      have hj : j > max := by
        simp only [Bool.and_eq_true, decide_eq_true_eq] at hb
        exact hb.2
      refine ⟨Char.ofNat 10 :: ' ' :: ' ' :: c :: t, ?_, BreaksInserted.brk j c rest t hsp hj hrel⟩
      rw [addNLinesLoop, if_pos hb]
      have h3 : (2 + 1 : Int) = 3 := by norm_num
      rw [h3, ht]
      simp
    · obtain ⟨t, ht, hrel⟩ := ih (j + 1) (sb ++ [c])
      refine ⟨c :: t, ?_, BreaksInserted.keep j c rest t hrel⟩
      rw [addNLinesLoop, if_neg hb, ht]
      simp

/-- A text is itself with no break inserted. -/
theorem BreaksInserted.self (max : Int) (s : List Char) : ∀ j, BreaksInserted max j s s := by
  induction s with
  | nil => exact fun j => BreaksInserted.nil j
  | cons c rest ih => exact fun j => BreaksInserted.keep j c rest rest (ih (j + 1))

/-- Inserting breaks adds white space only. -/
theorem BreaksInserted.filter_eq {max j : Int} {s t : List Char}
    (h : BreaksInserted max j s t) :
    t.filter (fun c => !IsSpace c) = s.filter (fun c => !IsSpace c) := by
  induction h with
  | nil j => rfl
  | keep j c s t _ ih => simp [List.filter_cons, ih]
  | brk j c s t hsp _ _ ih =>
    have h10 : IsSpace (Char.ofNat 10) = true := by decide
    have h32 : IsSpace ' ' = true := by decide
    simp [List.filter_cons, ih, h10, h32, hsp]

/-- C20: `addNLines(s, max)` is `s` itself when `len(s) ≤ max`; in every case it
is `s` with breaks (a newline and two spaces) inserted, each immediately before a
white space character of `s` that has more than `max` characters before it on
its output line, counted from the start of the text or from the last inserted
break; so the text without its white space is unchanged. -/
theorem C20_addNLines_keeps_content (s : List Char) (max : Int) :
    (byteLen s ≤ max → addNLines s max = s) ∧
    BreaksInserted max 0 s (addNLines s max) ∧
    (addNLines s max).filter (fun c => !IsSpace c) = s.filter (fun c => !IsSpace c) := by
  have hrel : BreaksInserted max 0 s (addNLines s max) := by
    unfold addNLines
    split_ifs
    · obtain ⟨t, ht, hrel⟩ := addNLinesLoop_spec max s 0 []
      rw [ht, List.nil_append]
      exact hrel
    · exact BreaksInserted.self max s 0
  refine ⟨?_, hrel, hrel.filter_eq⟩
  intro hle
  unfold addNLines
  rw [if_neg (by omega)]

/-- C20 at the text `aaaa bb cc` with `max = 3`: one break goes in before each
of the two spaces. -/
theorem C20_addNLines_keeps_content_witness :
    addNLines ['a', 'a', 'a', 'a', ' ', 'b', 'b', ' ', 'c', 'c'] 3 =
      ['a', 'a', 'a', 'a', Char.ofNat 10, ' ', ' ', ' ', 'b', 'b',
        Char.ofNat 10, ' ', ' ', ' ', 'c', 'c'] ∧
    (addNLines ['a', 'a', 'a', 'a', ' ', 'b', 'b', ' ', 'c', 'c'] 3).filter
        (fun c => !IsSpace c) = ['a', 'a', 'a', 'a', 'b', 'b', 'c', 'c'] := by
  refine ⟨by decide, ?_⟩
  rw [(C20_addNLines_keeps_content ['a', 'a', 'a', 'a', ' ', 'b', 'b', ' ', 'c', 'c'] 3).2.2]
  decide

/-! ## processStat -/

/-- When every piece of the line parses and there is at least one value,
`processStat` returns a series holding exactly the parsed values, and no error. -/
theorem processStat_of_pieces (sqrt : ℚ → ℚ) (e : List Char) (arr : List ℚ)
    (hp : parsePieces (Split (ReplaceAll (Join (Fields e) [',']) [',', ','] [',']) ',') []
      = some arr)
    (hne : arr ≠ []) :
    ∃ y, processStat sqrt e = some (some y, none) ∧ y.data = arr := by
  have hx := New_eq_some arr hne
  have hw := New_wellFormed arr _ hx
  obtain ⟨y, hy⟩ := RunAll_total sqrt _ hw
  have hf := RunAll_frame sqrt _ y hy
  have herr : y.err = none := hf.err_eq
  refine ⟨y, ?_, hf.1⟩
  unfold processStat NewString
  simp only [hp, hx, hy, Option.map_some', herr]

/-! ## C16: lines without a number -/

/-- C16 (code defect): the empty line, a line of two spaces and the line `,` do
not make `processStat` fail: each gives a series and no error, built from the
value 0 that the empty piece parses to once `.0` is appended to it (data `[0]`,
`[0]` and `[0,0]`). -/
theorem C16_empty_line_gives_a_series (sqrt : ℚ → ℚ) :
    (∃ y, processStat sqrt [] = some (some y, none) ∧ y.data = [0]) ∧
    (∃ y, processStat sqrt [' ', ' '] = some (some y, none) ∧ y.data = [0]) ∧
    (∃ y, processStat sqrt [','] = some (some y, none) ∧ y.data = [0, 0]) := by
  have h0 : parsePieces [[]] [] = some [0] := by
    simp [parsePieces, TrimSpace, Contains, ParseFloat, readDigits]
  have h00 : parsePieces [[], []] [] = some [0, 0] := by
    simp [parsePieces, TrimSpace, Contains, ParseFloat, readDigits]
  refine ⟨?_, ?_, ?_⟩
  · apply processStat_of_pieces sqrt [] [0] _ (by simp)
    have hs : Split (ReplaceAll (Join (Fields []) [',']) [',', ','] [',']) ',' = [[]] := by
      decide
    rw [hs, h0]
  · apply processStat_of_pieces sqrt [' ', ' '] [0] _ (by simp)
    have hs : Split (ReplaceAll (Join (Fields [' ', ' ']) [',']) [',', ','] [',']) ','
        = [[]] := by
      decide
    rw [hs, h0]
  · apply processStat_of_pieces sqrt [','] [0, 0] _ (by simp)
    have hs : Split (ReplaceAll (Join (Fields [',']) [',']) [',', ','] [',']) ','
        = [[], []] := by
      decide
    rw [hs, h00]

/-! ## C17: separator runs -/

/-- C17 (code defect): on the lines `1 , 2` and `1,,,2`, two tokens separated by
one run of separators, the single pass of `ReplaceAll` leaves `1,,2`, so an empty
piece reaches number parsing and the series holds three values, `[1,0,2]`; on
the line `1, 2 3.5` of the specification the data are `[1, 2, 3.5]`. -/
theorem C17_separator_run_gives_extra_value (sqrt : ℚ → ℚ) :
    ReplaceAll (Join (Fields ['1', ' ', ',', ' ', '2']) [',']) [',', ','] [',']
      = ['1', ',', ',', '2'] ∧
    (∃ y, processStat sqrt ['1', ' ', ',', ' ', '2'] = some (some y, none) ∧
      y.data = [1, 0, 2]) ∧
    (∃ y, processStat sqrt ['1', ',', ',', ',', '2'] = some (some y, none) ∧
      y.data = [1, 0, 2]) ∧
    (∃ y, processStat sqrt ['1', ',', ' ', '2', ' ', '3', '.', '5'] = some (some y, none) ∧
      y.data = [1, 2, 7 / 2]) := by
  have h102 : parsePieces [['1'], [], ['2']] [] = some [1, 0, 2] := by
    simp [parsePieces, TrimSpace, Contains, ParseFloat, readDigits, IsSpace]
    norm_num
  have h123 : parsePieces [['1'], ['2'], ['3', '.', '5']] [] = some [1, 2, 7 / 2] := by
    simp [parsePieces, TrimSpace, Contains, ParseFloat, readDigits, IsSpace]
    norm_num
  refine ⟨by decide, ?_, ?_, ?_⟩
  · apply processStat_of_pieces sqrt _ [1, 0, 2] _ (by simp)
    have hs : Split (ReplaceAll (Join (Fields ['1', ' ', ',', ' ', '2']) [','])
        [',', ','] [',']) ',' = [['1'], [], ['2']] := by
      decide
    rw [hs, h102]
  · apply processStat_of_pieces sqrt _ [1, 0, 2] _ (by simp)
    have hs : Split (ReplaceAll (Join (Fields ['1', ',', ',', ',', '2']) [','])
        [',', ','] [',']) ',' = [['1'], [], ['2']] := by
      decide
    rw [hs, h102]
  · apply processStat_of_pieces sqrt _ [1, 2, 7 / 2] _ (by simp)
    have hs : Split (ReplaceAll (Join (Fields ['1', ',', ' ', '2', ' ', '3', '.', '5']) [','])
        [',', ','] [',']) ',' = [['1'], ['2'], ['3', '.', '5']] := by
      decide
    rw [hs, h123]

end Statc
